import Mathlib

/-!
# Per-vertex reflectance evaluation of the IGRV mesh viewer

A shallow embedding of the reflectance engine of `IGRV_src/Main.cpp`:
the masking terms `G1Schlick` and `G1Smith`, the microfacet specular term
`microFacetFs`, the per-vertex aggregation `updatePerVertexColorResponse`
and the keyboard handler `key`.

The program computes in `float`.  Its functions are embedded once, generic in
the scalar type and its operations, and read in three arithmetics:

* exact arithmetic in a linearly ordered field (`ℚ`, `ℝ`): no rounding, and a
  quotient by zero is the field's `x / 0 = 0`, so a statement in this reading
  speaks for the code only where no denominator is zero;
* `FVal`: exact arithmetic on finite values together with the IEEE rules for
  NaN and for division by zero, used where a zero denominator is at stake;
* `Bin`: binary floating point with round-to-nearest-even after every
  operation, in which `G1SchlickBinary32` replays `G1Schlick` with the roundings
  of the C++ code.
-/

namespace IGRV

/-- Modelled from the spec: `Vec3.h` is not part of the sources at hand.  The
spec describes `Vector3` as an `(x, y, z)` float triple used for positions,
normals, directions and colours. -/
@[ext]
structure Vec3 (R : Type) where
  x : R
  y : R
  z : R
deriving DecidableEq, Repr

/-- The functions and the constant of `<cmath>` the program calls (`sqrt`,
`exp`, `pow` with a `float` exponent, `M_PI`), taken as a parameter. -/
structure Libm (R : Type) where
  sqrt : R → R
  exp : R → R
  pow : R → R → R
  pi : R

/-- Modelled from the spec: `LightSource.h` is not part of the sources at hand.
The spec gives a light a position, a radiant colour and an active flag, read by
`getPosition`, `getColor` and `isActive`. -/
structure LightSource (R : Type) where
  position : Vec3 R
  color : Vec3 R
  active : Bool
deriving DecidableEq, Repr

/-- Modelled from the spec: `Mesh.h` is not part of the sources at hand.  The
aggregator reads the ordered vertex positions and the ordered per-vertex
normals. -/
structure Mesh (R : Type) where
  positions : List (Vec3 R)
  normals : List (Vec3 R)

/-- The file-level mutable variables of `Main.cpp` that `key`, `microFacetFs`
and `updatePerVertexColorResponse` read or write.  The field `polygonFill`
stands for the GL polygon mode that the `w` key flips. -/
structure Globals (R : Type) where
  fullScreen : Bool
  polygonFill : Bool
  alphaSpeed : R
  F0Speed : R
  kd : R
  ks : R
  fd : R
  s : R
  alpha : R
  F0 : R
  microFacet : Bool
  ggx : Bool
  schlick : Bool
deriving DecidableEq, Repr

namespace Vec3

/-- Modelled from the spec: the zero vector `Vec3f (0.f, 0.f, 0.f)` of the
missing `Vec3.h`. -/
instance {R : Type} [Zero R] : Zero (Vec3 R) := ⟨⟨0, 0, 0⟩⟩

/-- Modelled from the spec: componentwise sum, `a + b` of the missing `Vec3.h`. -/
instance {R : Type} [Add R] : Add (Vec3 R) := ⟨fun a b => ⟨a.x + b.x, a.y + b.y, a.z + b.z⟩⟩

/-- Modelled from the spec: componentwise difference, `a - b` of the missing
`Vec3.h`. -/
instance {R : Type} [Sub R] : Sub (Vec3 R) := ⟨fun a b => ⟨a.x - b.x, a.y - b.y, a.z - b.z⟩⟩

end Vec3

section Defs

variable {R : Type} [Zero R] [One R] [NatCast R] [Add R] [Sub R] [Mul R] [Div R] [Pow R ℕ]
  [Max R] [Min R]

namespace Vec3

/-- Modelled from the spec: product of a vector by a scalar, `v * s` of the
missing `Vec3.h`. -/
def scale (v : Vec3 R) (s : R) : Vec3 R := ⟨v.x * s, v.y * s, v.z * s⟩

/-- Modelled from the spec: squared Euclidean length, from the missing `Vec3.h`. -/
def squaredLength (v : Vec3 R) : R := v.x * v.x + v.y * v.y + v.z * v.z

/-- Modelled from the spec: Euclidean length, `v.length ()` of the missing
`Vec3.h`; the spec calls it the distance. -/
def length (m : Libm R) (v : Vec3 R) : R := m.sqrt (squaredLength v)

/-- Modelled from the spec: the vector divided by its length, the value of `v`
after `v.normalize ()` of the missing `Vec3.h`. -/
def normalize (m : Libm R) (v : Vec3 R) : Vec3 R := scale v (1 / length m v)

end Vec3

/-- Modelled from the spec: scalar product `dot (a, b)` of the missing `Vec3.h`. -/
def dot (a b : Vec3 R) : R := a.x * b.x + a.y * b.y + a.z * b.z

/-- Attenuation constant `ac`. -/
def ac : R := 0

/-- Attenuation constant `al`. -/
def al : R := 1

/-- Attenuation constant `aq`. -/
def aq : R := 0

/-- The values the file-level variables are initialised with. -/
def initialGlobals (m : Libm R) : Globals R where
  fullScreen := false
  polygonFill := true
  alphaSpeed := 1 / 100
  F0Speed := 1 / 100
  kd := m.pi
  ks := 1
  fd := m.pi / m.pi
  s := 1
  alpha := 1 / 2
  F0 := 1 / 2
  microFacet := true
  ggx := false
  schlick := false

/-- `G1Schlick (w, n)`: Schlick approximation of the masking term. -/
def G1Schlick (m : Libm R) (g : Globals R) (w n : Vec3 R) : R :=
  let k := g.alpha * m.sqrt (2 / m.pi)
  dot n w / (dot n w * (1 - k) + k)

/-- `G1Smith (w, alpha2, n)`: Smith masking term. -/
def G1Smith (m : Libm R) (w : Vec3 R) (alpha2 : R) (n : Vec3 R) : R :=
  2 * dot n w / (dot n w + m.sqrt (alpha2 + (1 - alpha2) * dot n w ^ 2))

/-- The local `F` of `microFacetFs`: Fresnel factor in Schlick form. -/
def fresnel (g : Globals R) (wi wh : Vec3 R) : R :=
  g.F0 + (1 - g.F0) * (1 - max 0 (dot wi wh)) ^ 5

/-- The local `D` of the Cook-Torrance branch of `microFacetFs`. -/
def cookTorranceD (m : Libm R) (g : Globals R) (n wh : Vec3 R) : R :=
  let nwh2 := dot n wh ^ 2
  let alpha2 := g.alpha ^ 2
  m.exp ((nwh2 - 1) / (alpha2 * nwh2)) / (nwh2 ^ 2 * alpha2 * m.pi)

/-- The local `G` of the Cook-Torrance branch of `microFacetFs`. -/
def cookTorranceG (n wi wo wh : Vec3 R) : R :=
  let shading := 2 * (dot n wh * dot n wi) / dot wo wh
  let masking := 2 * (dot n wh * dot n wo) / dot wo wh
  min 1 (min shading masking)

/-- The local `D` of the GGX branch of `microFacetFs`. -/
def ggxD (m : Libm R) (g : Globals R) (n wh : Vec3 R) : R :=
  let nwh2 := dot n wh ^ 2
  let alphap := g.alpha
  let alphap2 := alphap ^ 2
  alphap2 / (m.pi * (1 + (alphap2 - 1) * nwh2) ^ 2)

/-- The local `G` of the GGX branch of `microFacetFs`. -/
def ggxG (m : Libm R) (g : Globals R) (n wi wo : Vec3 R) : R :=
  let alpha2 := g.alpha ^ 2
  if g.schlick = false then G1Smith m wi alpha2 n * G1Smith m wo alpha2 n
  else G1Schlick m g wi n * G1Schlick m g wo n

/-- `microFacetFs (n, wi, wo, wh)`: the microfacet specular term. -/
def microFacetFs (m : Libm R) (g : Globals R) (n wi wo wh : Vec3 R) : R :=
  if g.ggx = false then
    (cookTorranceD m g n wh * fresnel g wi wh * cookTorranceG n wi wo wh)
      / (4 * dot n wi * dot n wo)
  else
    (ggxD m g n wh * fresnel g wi wh * ggxG m g n wi wo) / (4 * dot n wi * dot n wo)

/-- The local `fs` of `updatePerVertexColorResponse`. -/
def specular (m : Libm R) (g : Globals R) (n wi wo wh : Vec3 R) : R :=
  if g.microFacet = false then g.ks * m.pow (dot n wh) g.s
  else microFacetFs m g n wi wo wh

/-- The local `attenuation` of `updatePerVertexColorResponse` at distance `d`. -/
def attenuation (d : R) : R := 1 / (ac + al * d + aq * d * d)

/-- Unit direction from the vertex `x` to the point `p`: the value of `wo` and of
`wi` after `normalize ()`. -/
def directionTo (m : Libm R) (p x : Vec3 R) : Vec3 R := Vec3.normalize m (p - x)

/-- The half vector `wh` of the directions `wi` and `wo` after `normalize ()`. -/
def halfVector (m : Libm R) (wi wo : Vec3 R) : Vec3 R := Vec3.normalize m (wi + wo)

/-- The vector one active light adds to the colour of the vertex at `x` with
normal `n`: the body of the `isActive` block. -/
def lightResponse (m : Libm R) (g : Globals R) (cameraPosition x n : Vec3 R)
    (lighSource : LightSource R) : Vec3 R :=
  let wo := directionTo m cameraPosition x
  let wi := directionTo m lighSource.position x
  let Li := lighSource.color
  let wh := halfVector m wi wo
  let fs := specular m g n wi wo wh
  let f := g.fd + fs
  let d := Vec3.length m (lighSource.position - x)
  ((Li.scale f).scale (max (dot n wi) 0)).scale (attenuation d)

/-- The inner loop over `lightSources` for vertex `i`, started with the
accumulator `c`.  Reading the mesh outside its bounds gives `none`. -/
def lightLoop (m : Libm R) (g : Globals R) (mesh : Mesh R) (cameraPosition : Vec3 R)
    (i : Nat) : List (LightSource R) → Vec3 R → Option (Vec3 R)
  | [], c => some c
  | l :: ls, c =>
    if l.active then
      match mesh.positions[i]?, mesh.normals[i]? with
      | some x, some n =>
        lightLoop m g mesh cameraPosition i ls (c + lightResponse m g cameraPosition x n l)
      | _, _ => none
    else lightLoop m g mesh cameraPosition i ls c

/-- The outer loop of `updatePerVertexColorResponse` from index `i`, with `k`
entries of the buffer left to write. -/
def vertexLoop (m : Libm R) (g : Globals R) (mesh : Mesh R) (cameraPosition : Vec3 R)
    (lightSources : List (LightSource R)) :
    Nat → Nat → List (Vec3 R) → Option (List (Vec3 R))
  | 0, _, colorResponses => some colorResponses
  | k + 1, i, colorResponses =>
    match lightLoop m g mesh cameraPosition i lightSources 0 with
    | some c =>
      vertexLoop m g mesh cameraPosition lightSources k (i + 1) (colorResponses.set i c)
    | none => none

/-- `updatePerVertexColorResponse ()`: the colour buffer after the pass. -/
def updatePerVertexColorResponse (m : Libm R) (g : Globals R) (mesh : Mesh R)
    (cameraPosition : Vec3 R) (lightSources : List (LightSource R))
    (colorResponses : List (Vec3 R)) : Option (List (Vec3 R)) :=
  vertexLoop m g mesh cameraPosition lightSources colorResponses.length 0 colorResponses

/-- `key (keyPressed, x, y)`: the file-level variables after the key press, or
`none` when the handler ends the process (`q`, escape). -/
def key (keyPressed : Char) (g : Globals R) : Option (Globals R) :=
  match keyPressed with
  | 'f' => if g.fullScreen then some { g with fullScreen := false }
           else some { g with fullScreen := true }
  | 'q' => none
  | '\x1b' => none
  | 'w' => some { g with polygonFill := !g.polygonFill }
  | 'c' => some { g with microFacet := !g.microFacet }
  | 'v' => some { g with ggx := !g.ggx }
  | 'b' => some { g with schlick := !g.schlick }
  | 'r' => some { g with alpha := min (g.alpha + g.alphaSpeed) 1 }
  | 't' => some { g with alpha := max (g.alpha - g.alphaSpeed) g.alphaSpeed }
  | 'y' => some { g with F0 := min (g.F0 + g.F0Speed) 1 }
  | 'u' => some { g with F0 := max (g.F0 - g.F0Speed) 0 }
  | _ => some g

/-- The handler run on a sequence of key presses, first key first. -/
def keys : List Char → Globals R → Option (Globals R)
  | [], g => some g
  | k :: ks, g =>
    match key k g with
    | some g' => keys ks g'
    | none => none

end Defs

/-- A `float` value read up to rounding: a finite number, NaN, or `unk`, a value
this reading does not determine (an infinity, or a value that depends on the
sign of an infinity or of a zero).  Every IEEE operation with a NaN operand
returns NaN; `0/0` is NaN; `a/0` with `a ≠ 0` is an infinity, hence `unk`. -/
inductive FVal (R : Type) where
  | fin : R → FVal R
  | nan : FVal R
  | unk : FVal R
deriving DecidableEq, Repr

namespace FVal

variable {R : Type} [LinearOrderedField R]

/-- IEEE addition up to rounding. -/
def add : FVal R → FVal R → FVal R
  | nan, _ => nan
  | _, nan => nan
  | fin a, fin b => fin (a + b)
  | _, _ => unk

/-- IEEE subtraction up to rounding. -/
def sub : FVal R → FVal R → FVal R
  | nan, _ => nan
  | _, nan => nan
  | fin a, fin b => fin (a - b)
  | _, _ => unk

/-- IEEE multiplication up to rounding. -/
def mul : FVal R → FVal R → FVal R
  | nan, _ => nan
  | _, nan => nan
  | fin a, fin b => fin (a * b)
  | _, _ => unk

/-- IEEE division up to rounding: `0/0` is NaN, `a/0` with `a ≠ 0` is an
infinity. -/
def div : FVal R → FVal R → FVal R
  | nan, _ => nan
  | _, nan => nan
  | fin a, fin b => if b = 0 then (if a = 0 then nan else unk) else fin (a / b)
  | _, _ => unk

/-- The function `std::max (a, b)`, which is `(a < b) ? b : a`; a comparison with
NaN is false. -/
def max : FVal R → FVal R → FVal R
  | nan, _ => nan
  | fin a, fin b => if a < b then fin b else fin a
  | fin a, nan => fin a
  | _, _ => unk

/-- The function `std::min (a, b)`, which is `(b < a) ? b : a`; a comparison with
NaN is false. -/
def min : FVal R → FVal R → FVal R
  | a, nan => a
  | nan, _ => nan
  | fin a, fin b => if b < a then fin b else fin a
  | _, _ => unk

/-- The function `pow (x, n)` for an integer literal `n`; `pow (x, 0)` is 1 for
every `x`. -/
def npow : FVal R → Nat → FVal R
  | _, 0 => fin 1
  | fin a, n + 1 => fin (a ^ (n + 1))
  | nan, _ + 1 => nan
  | unk, _ + 1 => unk

instance : Zero (FVal R) := ⟨fin 0⟩

instance : One (FVal R) := ⟨fin 1⟩

instance : NatCast (FVal R) := ⟨fun n => fin n⟩

instance : Add (FVal R) := ⟨add⟩

instance : Sub (FVal R) := ⟨sub⟩

instance : Mul (FVal R) := ⟨mul⟩

instance : Div (FVal R) := ⟨div⟩

instance : Pow (FVal R) ℕ := ⟨npow⟩

instance : Max (FVal R) := ⟨max⟩

instance : Min (FVal R) := ⟨min⟩

end FVal

section Special

variable {R : Type} [LinearOrderedField R]

/-- The `<cmath>` functions on `FVal`: `sqrt` of a negative number is NaN,
`pow (x, y)` is taken from `m` for `x > 0` and for `y = 1`, `pow (NaN, 0)` and
`pow (1, NaN)` are 1. -/
def Libm.special (m : Libm R) : Libm (FVal R) where
  sqrt := fun
    | .fin a => if a < 0 then .nan else .fin (m.sqrt a)
    | .nan => .nan
    | .unk => .unk
  exp := fun
    | .fin a => .fin (m.exp a)
    | .nan => .nan
    | .unk => .unk
  pow := fun
    | .fin a, .fin b => if 0 < a ∨ b = 1 then .fin (m.pow a b) else .unk
    | .nan, .fin b => if b = 0 then .fin 1 else .nan
    | .fin a, .nan => if a = 1 then .fin 1 else .nan
    | .nan, .nan => .nan
    | _, _ => .unk
  pi := .fin m.pi

/-- A vector of finite numbers as a vector of `FVal`. -/
def Vec3.toF (v : Vec3 R) : Vec3 (FVal R) := ⟨.fin v.x, .fin v.y, .fin v.z⟩

/-- A light with finite position and colour. -/
def LightSource.toF (l : LightSource R) : LightSource (FVal R) :=
  ⟨l.position.toF, l.color.toF, l.active⟩

/-- A mesh with finite positions and normals. -/
def Mesh.toF (mesh : Mesh R) : Mesh (FVal R) :=
  ⟨mesh.positions.map Vec3.toF, mesh.normals.map Vec3.toF⟩

/-- The file-level variables with finite values. -/
def Globals.toF (g : Globals R) : Globals (FVal R) where
  fullScreen := g.fullScreen
  polygonFill := g.polygonFill
  alphaSpeed := .fin g.alphaSpeed
  F0Speed := .fin g.F0Speed
  kd := .fin g.kd
  ks := .fin g.ks
  fd := .fin g.fd
  s := .fin g.s
  alpha := .fin g.alpha
  F0 := .fin g.F0
  microFacet := g.microFacet
  ggx := g.ggx
  schlick := g.schlick

/-- No division by zero and no square root of a negative number in
`G1Schlick (w, n)`. -/
def G1SchlickDefined (m : Libm R) (g : Globals R) (w n : Vec3 R) : Prop :=
  m.pi ≠ 0 ∧ 0 ≤ 2 / m.pi ∧
    dot n w * (1 - g.alpha * m.sqrt (2 / m.pi)) + g.alpha * m.sqrt (2 / m.pi) ≠ 0

/-- No division by zero and no square root of a negative number in
`G1Smith (w, alpha2, n)`. -/
def G1SmithDefined (m : Libm R) (w : Vec3 R) (alpha2 : R) (n : Vec3 R) : Prop :=
  0 ≤ alpha2 + (1 - alpha2) * dot n w ^ 2 ∧
    dot n w + m.sqrt (alpha2 + (1 - alpha2) * dot n w ^ 2) ≠ 0

/-- No division by zero and no square root of a negative number in
`microFacetFs (n, wi, wo, wh)`. -/
def microFacetFsDefined (m : Libm R) (g : Globals R) (n wi wo wh : Vec3 R) : Prop :=
  4 * dot n wi * dot n wo ≠ 0 ∧
    if g.ggx = false then
      g.alpha ^ 2 * dot n wh ^ 2 ≠ 0 ∧ (dot n wh ^ 2) ^ 2 * g.alpha ^ 2 * m.pi ≠ 0 ∧
        dot wo wh ≠ 0
    else
      m.pi * (1 + (g.alpha ^ 2 - 1) * dot n wh ^ 2) ^ 2 ≠ 0 ∧
        if g.schlick = false then
          G1SmithDefined m wi (g.alpha ^ 2) n ∧ G1SmithDefined m wo (g.alpha ^ 2) n
        else G1SchlickDefined m g wi n ∧ G1SchlickDefined m g wo n

/-- The specular term `fs` is computed without a division by zero, and `pow` is
called with a positive base or with the exponent 1. -/
def specularDefined (m : Libm R) (g : Globals R) (n wi wo wh : Vec3 R) : Prop :=
  if g.microFacet = false then 0 < dot n wh ∨ g.s = 1
  else microFacetFsDefined m g n wi wo wh

/-- The body of the `isActive` block is computed without a division by zero: the
viewer and the light are not on the vertex, `wi + wo` is not the zero vector,
the specular term is defined and the attenuation denominator is not zero. -/
def lightResponseDefined (m : Libm R) (g : Globals R) (cameraPosition x n : Vec3 R)
    (l : LightSource R) : Prop :=
  Vec3.length m (cameraPosition - x) ≠ 0 ∧ Vec3.length m (l.position - x) ≠ 0 ∧
    Vec3.length m (directionTo m l.position x + directionTo m cameraPosition x) ≠ 0 ∧
    specularDefined m g n (directionTo m l.position x) (directionTo m cameraPosition x)
      (halfVector m (directionTo m l.position x) (directionTo m cameraPosition x)) ∧
    ac + al * Vec3.length m (l.position - x)
      + aq * Vec3.length m (l.position - x) * Vec3.length m (l.position - x) ≠ (0 : R)

end Special

/-- A finite binary floating-point number `man * 2 ^ exp`. -/
structure Bin where
  man : Int
  exp : Int
deriving DecidableEq, Repr

namespace Bin

/-- Number of binary digits of `n`, with fuel. -/
def bitLengthAux : Nat → Nat → Nat
  | 0, _ => 0
  | f + 1, n => if n = 0 then 0 else bitLengthAux f (n / 2) + 1

/-- Number of binary digits of `n`; 0 for 0. -/
def bitLength (n : Nat) : Nat := bitLengthAux n n

/-- Strip the trailing zero bits of the significand, with fuel. -/
def normAux : Nat → Int → Int → Bin
  | 0, m, e => ⟨m, e⟩
  | f + 1, m, e =>
    if m = 0 then ⟨0, 0⟩ else if m % 2 = 0 then normAux f (m / 2) (e + 1) else ⟨m, e⟩

/-- The representation with an odd significand; zero is `0 * 2 ^ 0`. -/
def norm (a : Bin) : Bin := normAux (a.man.natAbs + 1) a.man a.exp

/-- Exact negation. -/
def neg (a : Bin) : Bin := ⟨-a.man, a.exp⟩

/-- Exact product. -/
def mulExact (a b : Bin) : Bin := ⟨a.man * b.man, a.exp + b.exp⟩

/-- Exact sum. -/
def addExact (a b : Bin) : Bin :=
  let e := min a.exp b.exp
  ⟨a.man * 2 ^ (a.exp - e).toNat + b.man * 2 ^ (b.exp - e).toNat, e⟩

/-- Exact difference. -/
def subExact (a b : Bin) : Bin := addExact a (neg b)

/-- The comparison `a < b`. -/
def lt (a b : Bin) : Bool := decide ((subExact a b).man < 0)

/-- Round `(q + t) * 2 ^ e` to `p` significant bits, to nearest, ties to even,
where `0 ≤ t < 1`, `sticky` says that `t ≠ 0`, and `q` has more than `p` bits. -/
def roundCore (p : Nat) (q : Nat) (sticky : Bool) (e : Int) : Bin :=
  let drop := bitLength q - p
  let hi := q / 2 ^ drop
  let lo := q % 2 ^ drop
  let half := 2 ^ (drop - 1)
  let up := decide (half < lo) || (decide (lo = half) && (sticky || decide (hi % 2 = 1)))
  norm ⟨((if up then hi + 1 else hi : Nat) : Int), e + drop⟩

/-- Round the non-negative rational `n / d * 2 ^ e` to `p` significant bits.  The
exponent range is not bounded: overflow and subnormal numbers are left out. -/
def roundPos (p : Nat) (n d : Nat) (e : Int) : Bin :=
  if n = 0 then ⟨0, 0⟩
  else
    let s := p + 2 + bitLength d
    roundCore p (n * 2 ^ s / d) (decide (n * 2 ^ s % d ≠ 0)) (e - s)

/-- Round a binary number to `p` significant bits: 24 for `float`, 53 for
`double`. -/
def round (p : Nat) (a : Bin) : Bin :=
  if a.man < 0 then neg (roundPos p a.man.natAbs 1 a.exp) else roundPos p a.man.natAbs 1 a.exp

/-- The sum rounded to `p` bits. -/
def fadd (p : Nat) (a b : Bin) : Bin := round p (addExact a b)

/-- The difference rounded to `p` bits. -/
def fsub (p : Nat) (a b : Bin) : Bin := round p (subExact a b)

/-- The product rounded to `p` bits. -/
def fmul (p : Nat) (a b : Bin) : Bin := round p (mulExact a b)

/-- The quotient rounded to `p` bits, for a divisor that is not zero. -/
def fdiv (p : Nat) (a b : Bin) : Bin :=
  let r := roundPos p a.man.natAbs b.man.natAbs (a.exp - b.exp)
  if (decide (a.man < 0)) != (decide (b.man < 0)) then neg r else r

/-- Integer square root, bit by bit. -/
def isqrtAux (N : Nat) : Nat → Nat → Nat
  | 0, r => r
  | k + 1, r =>
    if (r + 2 ^ k) * (r + 2 ^ k) ≤ N then isqrtAux N k (r + 2 ^ k) else isqrtAux N k r

/-- The largest `s` with `s * s ≤ N`. -/
def isqrt (N : Nat) : Nat := isqrtAux N (bitLength N / 2 + 1) 0

/-- The square root of a positive number rounded to `p` bits. -/
def fsqrt (p : Nat) (a : Bin) : Bin :=
  if a.man ≤ 0 then ⟨0, 0⟩
  else
    let t : Int := 2 * p + 4 + (a.exp - (2 * p + 4)) % 2
    let N := a.man.natAbs * 2 ^ t.toNat
    let s := isqrt N
    roundCore p s (decide (s * s ≠ N)) ((a.exp - t) / 2)

end Bin

/-- The constant `M_PI`: the `double` nearest to 3.14159265358979323846. -/
def piDouble : Bin := Bin.roundPos 53 314159265358979323846 (10 ^ 20) 0

/-- The literal `0.01f` of `alphaSpeed`: the `float` nearest to 0.01. -/
def alphaSpeedBinary32 : Bin := Bin.roundPos 24 1 100 0

/-- `G1Schlick (w, n)` with the roundings of the C++ code, where `c` is the `float`
that `dot (n, w)` returns: `2.0f / M_PI`, its `sqrt` and the product with `alpha`
are computed in `double`, the assignment to `float k` rounds to `float`, and the
returned expression is computed in `float`. -/
def G1SchlickBinary32 (alpha c : Bin) : Bin :=
  let k := Bin.round 24 (Bin.fmul 53 alpha (Bin.fsqrt 53 (Bin.fdiv 53 ⟨2, 0⟩ piDouble)))
  Bin.fdiv 24 c (Bin.fadd 24 (Bin.fmul 24 c (Bin.fsub 24 ⟨1, 0⟩ k)) k)

/-- The GGX geometry term `G` of `microFacetFs` in its Schlick sub-mode with the
roundings of the C++ code, where `ci` and `co` are the `float` values of
`dot (n, wi)` and `dot (n, wo)`. -/
def ggxGSchlickBinary32 (alpha ci co : Bin) : Bin :=
  Bin.fmul 24 (G1SchlickBinary32 alpha ci) (G1SchlickBinary32 alpha co)

section SpecDefs

variable {R : Type} [LinearOrderedField R]

/-- The range invariant of the roughness and the Fresnel index, with the two
step sizes at their initial value. -/
def RangeInv (g : Globals R) : Prop :=
  g.alphaSpeed = 1 / 100 ∧ g.F0Speed = 1 / 100 ∧
    g.alphaSpeed ≤ g.alpha ∧ g.alpha ≤ 1 ∧ 0 ≤ g.F0 ∧ g.F0 ≤ 1

/-- The seven material commands of the keyboard handler. -/
def materialKeys : List Char := ['c', 'v', 'b', 'r', 't', 'y', 'u']

/-- Sum of a list of vectors, first to last, starting from the zero vector. -/
def sumVec (vs : List (Vec3 R)) : Vec3 R := vs.foldl (fun c v => c + v) 0

/-- The term of one light in the closed form of the vertex colour, in the words
of the specification: lightColor * (fd + fs) * dot(n,wi) / (ac + al*d + aq*d^2)
with d the distance between the light and the vertex. -/
def frontLightTerm (m : Libm R) (g : Globals R) (cameraPosition x n : Vec3 R)
    (l : LightSource R) : Vec3 R :=
  let wo := directionTo m cameraPosition x
  let wi := directionTo m l.position x
  let wh := halfVector m wi wo
  let d := Vec3.length m (l.position - x)
  l.color.scale ((g.fd + specular m g n wi wo wh) * dot n wi / (ac + al * d + aq * d ^ 2))

/-- The closed form of the vertex colour, in the words of the specification: the
sum of `frontLightTerm` over the active lights with dot(n,wi) > 0. -/
def frontLightSum (m : Libm R) (g : Globals R) (cameraPosition x n : Vec3 R)
    (lightSources : List (LightSource R)) : Vec3 R :=
  sumVec ((lightSources.filter
    (fun l => l.active && decide (0 < dot n (directionTo m l.position x)))).map
      (frontLightTerm m g cameraPosition x n))

/-- The value of the specular term `fs` for head-on light and view when `ks` is 0:
`F0 / (4 * pi * alpha^2)` in microfacet mode, 0 in Blinn-Phong mode. -/
def headOnFs (mf : Bool) (a f0 pi : R) : R := if mf then f0 / (4 * pi * a ^ 2) else 0

end SpecDefs

section KeyLemmas

variable {R : Type} [LinearOrderedField R]

theorem rangeInv_initial (m : Libm R) : RangeInv (initialGlobals m) := by
  refine ⟨rfl, rfl, ?_, ?_, ?_, ?_⟩ <;> simp only [initialGlobals] <;> norm_num

theorem key_rangeInv (k : Char) (hk : k ∈ materialKeys) (g : Globals R) (hg : RangeInv g) :
    ∃ g', key k g = some g' ∧ RangeInv g' := by
  obtain ⟨h1, h2, h3, h4, h5, h6⟩ := hg
  have hs : (0 : R) ≤ g.alphaSpeed := by rw [h1]; norm_num
  have hf : (0 : R) ≤ g.F0Speed := by rw [h2]; norm_num
  simp only [materialKeys, List.mem_cons, List.mem_singleton, List.not_mem_nil, or_false] at hk
  rcases hk with rfl | rfl | rfl | rfl | rfl | rfl | rfl
  · exact ⟨_, rfl, h1, h2, h3, h4, h5, h6⟩
  · exact ⟨_, rfl, h1, h2, h3, h4, h5, h6⟩
  · exact ⟨_, rfl, h1, h2, h3, h4, h5, h6⟩
  · refine ⟨_, rfl, h1, h2, ?_, ?_, h5, h6⟩
    · exact le_min (by linarith) (by rw [h1]; norm_num)
    · exact min_le_right _ _
  · refine ⟨_, rfl, h1, h2, ?_, ?_, h5, h6⟩
    · exact le_max_right _ _
    · exact max_le (by linarith) (by rw [h1]; norm_num)
  · refine ⟨_, rfl, h1, h2, h3, h4, ?_, ?_⟩
    · exact le_min (by linarith) (by norm_num)
    · exact min_le_right _ _
  · refine ⟨_, rfl, h1, h2, h3, h4, ?_, ?_⟩
    · exact le_max_right _ _
    · exact max_le (by linarith) (by norm_num)

theorem keys_rangeInv (ks : List Char) (hks : ∀ k ∈ ks, k ∈ materialKeys) (g : Globals R)
    (hg : RangeInv g) : ∃ g', keys ks g = some g' ∧ RangeInv g' := by
  induction ks generalizing g with
  | nil => exact ⟨g, rfl, hg⟩
  | cons k ks ih =>
    obtain ⟨g1, hk, hg1⟩ := key_rangeInv k (hks k (List.mem_cons_self _ _)) g hg
    obtain ⟨g2, hk2, hg2⟩ := ih (fun c hc => hks c (List.mem_cons_of_mem _ hc)) g1 hg1
    exact ⟨g2, by simp only [keys, hk, hk2], hg2⟩

/-- The roughness after `n` presses of `t`. -/
theorem keys_replicate_t (n : Nat) (g : Globals R) (hs : 0 ≤ g.alphaSpeed)
    (ha : g.alphaSpeed ≤ g.alpha) :
    keys (List.replicate n 't') g
      = some { g with alpha := max (g.alpha - n * g.alphaSpeed) g.alphaSpeed } := by
  induction n generalizing g with
  | zero =>
    simp only [List.replicate_zero, keys, Nat.cast_zero, zero_mul, sub_zero]
    rw [max_eq_left ha]
  | succ n ih =>
    have step : key 't' g
        = some { g with alpha := max (g.alpha - g.alphaSpeed) g.alphaSpeed } := rfl
    rw [List.replicate_succ]
    simp only [keys, step]
    rw [ih { g with alpha := max (g.alpha - g.alphaSpeed) g.alphaSpeed } hs (le_max_right _ _)]
    congr 2
    simp only
    push_cast
    rcases le_total (g.alpha - g.alphaSpeed) g.alphaSpeed with h | h
    · rw [max_eq_right h, max_eq_right, max_eq_right]
      · nlinarith [(Nat.cast_nonneg n : (0 : R) ≤ n)]
      · nlinarith [(Nat.cast_nonneg n : (0 : R) ≤ n)]
    · rw [max_eq_left h]
      congr 1
      ring

end KeyLemmas

section LoopStructure

variable {R : Type} [Zero R] [One R] [NatCast R] [Add R] [Sub R] [Mul R] [Div R] [Pow R ℕ]
  [Max R] [Min R]

/-- With every light inactive the inner loop leaves the accumulator alone and
never reads the mesh. -/
theorem lightLoop_inactive (m : Libm R) (g : Globals R) (mesh : Mesh R) (cam : Vec3 R)
    (i : Nat) (lights : List (LightSource R)) (c : Vec3 R)
    (h : ∀ l ∈ lights, l.active = false) :
    lightLoop m g mesh cam i lights c = some c := by
  induction lights generalizing c with
  | nil => rfl
  | cons l ls ih =>
    have hl : l.active = false := h l (List.mem_cons_self _ _)
    simp only [lightLoop, hl, Bool.false_eq_true, if_false]
    exact ih c (fun l' hl' => h l' (List.mem_cons_of_mem _ hl'))

theorem take_succ_set {α : Type} (buf : List α) (i : Nat) (c : α) (h : i < buf.length) :
    (buf.set i c).take (i + 1) = buf.take i ++ [c] := by
  induction buf generalizing i with
  | nil => simp at h
  | cons b bs ih =>
    cases i with
    | zero => simp
    | succ i =>
      simp only [List.length_cons, Nat.add_lt_add_iff_right] at h
      simp only [List.set_cons_succ, List.take_succ_cons, List.cons_append, ih i h]

/-- The outer loop writes the value of the inner loop at each remaining index. -/
theorem vertexLoop_eq (m : Libm R) (g : Globals R) (mesh : Mesh R) (cam : Vec3 R)
    (lights : List (LightSource R)) (f : Nat → Vec3 R) (k : Nat) :
    ∀ (i : Nat) (buf : List (Vec3 R)), i + k = buf.length →
      (∀ j, i ≤ j → j < i + k → lightLoop m g mesh cam j lights 0 = some (f j)) →
      vertexLoop m g mesh cam lights k i buf
        = some (buf.take i ++ (List.range' i k).map f) := by
  induction k with
  | zero =>
    intro i buf hlen _
    simp only [vertexLoop, List.range'_zero, List.map_nil, List.append_nil]
    rw [List.take_of_length_le (by omega)]
  | succ k ih =>
    intro i buf hlen hf
    have hi : lightLoop m g mesh cam i lights 0 = some (f i) := hf i le_rfl (by omega)
    simp only [vertexLoop, hi]
    rw [ih (i + 1) (buf.set i (f i)) (by simp only [List.length_set]; omega)
      (fun j hj1 hj2 => hf j (by omega) (by omega))]
    congr 1
    have hlt : i < buf.length := by omega
    rw [List.range'_succ, List.map_cons, take_succ_set buf i (f i) hlt, List.append_assoc,
      List.singleton_append]

/-- The pass writes, at every index of the buffer, the value of the inner loop. -/
theorem update_eq (m : Libm R) (g : Globals R) (mesh : Mesh R) (cam : Vec3 R)
    (lights : List (LightSource R)) (f : Nat → Vec3 R) (buf : List (Vec3 R))
    (hf : ∀ j, j < buf.length → lightLoop m g mesh cam j lights 0 = some (f j)) :
    updatePerVertexColorResponse m g mesh cam lights buf
      = some ((List.range buf.length).map f) := by
  unfold updatePerVertexColorResponse
  rw [vertexLoop_eq m g mesh cam lights f buf.length 0 buf (by omega)
    (fun j _ hj => hf j (by omega))]
  simp [List.range_eq_range']

/-- Two material states with the same per-light response give the same pass. -/
theorem update_congr (m : Libm R) (g1 g2 : Globals R) (mesh : Mesh R) (cam : Vec3 R)
    (lights : List (LightSource R)) (buf : List (Vec3 R))
    (h : ∀ x n l, lightResponse m g1 cam x n l = lightResponse m g2 cam x n l) :
    updatePerVertexColorResponse m g1 mesh cam lights buf
      = updatePerVertexColorResponse m g2 mesh cam lights buf := by
  have hl : ∀ (i : Nat) (ls : List (LightSource R)) (c : Vec3 R),
      lightLoop m g1 mesh cam i ls c = lightLoop m g2 mesh cam i ls c := by
    intro i ls
    induction ls with
    | nil => intro c; rfl
    | cons l ls ih =>
      intro c
      simp only [lightLoop, h, ih]
  have hv : ∀ (k i : Nat) (b : List (Vec3 R)),
      vertexLoop m g1 mesh cam lights k i b = vertexLoop m g2 mesh cam lights k i b := by
    intro k
    induction k with
    | zero => intro i b; rfl
    | succ k ih =>
      intro i b
      simp only [vertexLoop, hl, ih]
  exact hv _ _ _

/-- Inactive lights at the head of the list are skipped. -/
theorem lightLoop_append_inactive (m : Libm R) (g : Globals R) (mesh : Mesh R) (cam : Vec3 R)
    (i : Nat) (before rest : List (LightSource R)) (c : Vec3 R)
    (h : ∀ l ∈ before, l.active = false) :
    lightLoop m g mesh cam i (before ++ rest) c = lightLoop m g mesh cam i rest c := by
  induction before with
  | nil => rfl
  | cons l ls ih =>
    have hl : l.active = false := h l (List.mem_cons_self _ _)
    simp only [List.cons_append, lightLoop, hl, Bool.false_eq_true, if_false]
    exact ih (fun l' hl' => h l' (List.mem_cons_of_mem _ hl'))

end LoopStructure

section LoopLemmas

variable {R : Type} [LinearOrderedField R]

@[simp] theorem Vec3.zero_x : (0 : Vec3 R).x = 0 := rfl

@[simp] theorem Vec3.zero_y : (0 : Vec3 R).y = 0 := rfl

@[simp] theorem Vec3.zero_z : (0 : Vec3 R).z = 0 := rfl

@[simp] theorem Vec3.add_x (a b : Vec3 R) : (a + b).x = a.x + b.x := rfl

@[simp] theorem Vec3.add_y (a b : Vec3 R) : (a + b).y = a.y + b.y := rfl

@[simp] theorem Vec3.add_z (a b : Vec3 R) : (a + b).z = a.z + b.z := rfl

@[simp] theorem Vec3.sub_x (a b : Vec3 R) : (a - b).x = a.x - b.x := rfl

@[simp] theorem Vec3.sub_y (a b : Vec3 R) : (a - b).y = a.y - b.y := rfl

@[simp] theorem Vec3.sub_z (a b : Vec3 R) : (a - b).z = a.z - b.z := rfl

theorem Vec3.add_zero_right (a : Vec3 R) : a + 0 = a := by
  ext <;> simp

theorem Vec3.scale_zero (a : Vec3 R) : a.scale 0 = 0 := by
  ext <;> simp [Vec3.scale]

theorem Vec3.zero_scale (s : R) : (0 : Vec3 R).scale s = 0 := by
  ext <;> simp [Vec3.scale]

/-- A light on or behind the tangent plane adds the zero vector. -/
theorem lightResponse_behind (m : Libm R) (g : Globals R) (cam x n : Vec3 R)
    (l : LightSource R) (h : dot n (directionTo m l.position x) ≤ 0) :
    lightResponse m g cam x n l = 0 := by
  simp only [lightResponse, max_eq_right h, Vec3.scale_zero, Vec3.zero_scale]

/-- A light in front of the tangent plane adds its closed-form term. -/
theorem lightResponse_front (m : Libm R) (g : Globals R) (cam x n : Vec3 R)
    (l : LightSource R) (h : 0 < dot n (directionTo m l.position x)) :
    lightResponse m g cam x n l = frontLightTerm m g cam x n l := by
  simp only [lightResponse, frontLightTerm, max_eq_left h.le, attenuation]
  ext <;> simp only [Vec3.scale] <;> ring

/-- The inner loop at a vertex the mesh has: the accumulator plus the closed-form
terms of the active lights in front of the tangent plane, in order. -/
theorem lightLoop_eq_foldl (m : Libm R) (g : Globals R) (mesh : Mesh R) (cam : Vec3 R)
    (i : Nat) (x n : Vec3 R) (hx : mesh.positions[i]? = some x)
    (hn : mesh.normals[i]? = some n) (lights : List (LightSource R)) :
    ∀ c : Vec3 R, lightLoop m g mesh cam i lights c
      = some (((lights.filter
          (fun l => l.active && decide (0 < dot n (directionTo m l.position x)))).map
            (frontLightTerm m g cam x n)).foldl (fun c v => c + v) c) := by
  induction lights with
  | nil => intro c; rfl
  | cons l ls ih =>
    intro c
    cases hact : l.active with
    | false =>
      simp only [lightLoop, hact, Bool.false_eq_true, if_false, List.filter_cons,
        Bool.false_and]
      exact ih c
    | true =>
      simp only [lightLoop, hact, if_true, hx, hn, List.filter_cons, Bool.true_and]
      by_cases hpos : 0 < dot n (directionTo m l.position x)
      · simp only [decide_eq_true hpos, if_true, List.map_cons, List.foldl_cons]
        rw [lightResponse_front m g cam x n l hpos]
        exact ih _
      · simp only [decide_eq_false hpos, Bool.false_eq_true, if_false]
        rw [lightResponse_behind m g cam x n l (not_lt.mp hpos), Vec3.add_zero_right]
        exact ih c

/-- The pass over a mesh that covers the buffer: every entry is the closed-form
sum at its vertex. -/
theorem update_eq_frontLightSum (m : Libm R) (g : Globals R) (mesh : Mesh R) (cam : Vec3 R)
    (lights : List (LightSource R)) (buf : List (Vec3 R))
    (hp : buf.length ≤ mesh.positions.length) (hn : buf.length ≤ mesh.normals.length) :
    ∃ out, updatePerVertexColorResponse m g mesh cam lights buf = some out ∧
      out.length = buf.length ∧
      ∀ j x n, j < buf.length → mesh.positions[j]? = some x → mesh.normals[j]? = some n →
        out[j]? = some (frontLightSum m g cam x n lights) := by
  refine ⟨_, update_eq m g mesh cam lights
    (fun j => match mesh.positions[j]?, mesh.normals[j]? with
      | some x, some n => frontLightSum m g cam x n lights
      | _, _ => 0) buf ?_, by simp, ?_⟩
  · intro j hj
    have h1 : j < mesh.positions.length := by omega
    have h2 : j < mesh.normals.length := by omega
    rw [lightLoop_eq_foldl m g mesh cam j _ _ (List.getElem?_eq_getElem h1)
      (List.getElem?_eq_getElem h2)]
    simp only [List.getElem?_eq_getElem h1, List.getElem?_eq_getElem h2, frontLightSum, sumVec]
  · intro j x n hj hx hnn
    simp only [List.getElem?_map, List.getElem?_range hj, Option.map_some', hx, hnn]

theorem Vec3.zero_add_left (a : Vec3 R) : 0 + a = a := by
  ext <;> simp

end LoopLemmas

section SpecialLemmas

variable {R : Type} [LinearOrderedField R]

@[simp] theorem FVal.zero_def : (0 : FVal R) = .fin 0 := rfl

@[simp] theorem FVal.one_def : (1 : FVal R) = .fin 1 := rfl

@[simp] theorem FVal.ofNat_def (k : ℕ) [k.AtLeastTwo] :
    (OfNat.ofNat k : FVal R) = .fin (OfNat.ofNat k) := by
  show FVal.fin ((OfNat.ofNat k : ℕ) : R) = _
  rw [Nat.cast_ofNat]

@[simp] theorem FVal.fin_add (a b : R) : (.fin a + .fin b : FVal R) = .fin (a + b) := rfl

@[simp] theorem FVal.fin_sub (a b : R) : (.fin a - .fin b : FVal R) = .fin (a - b) := rfl

@[simp] theorem FVal.fin_mul (a b : R) : (.fin a * .fin b : FVal R) = .fin (a * b) := rfl

theorem FVal.fin_div (a b : R) (hb : b ≠ 0) : (.fin a / .fin b : FVal R) = .fin (a / b) := by
  show FVal.div (.fin a) (.fin b) = _
  simp only [FVal.div, hb, if_false]

/-- The quotient `0/0` is NaN. -/
theorem FVal.zero_div_zero : (.fin 0 / .fin 0 : FVal R) = .nan := by
  show FVal.div (.fin 0) (.fin 0) = _
  simp only [FVal.div, if_true]

@[simp] theorem FVal.fin_pow (a : R) (k : ℕ) : (.fin a ^ k : FVal R) = .fin (a ^ k) := by
  cases k with
  | zero => show FVal.npow (.fin a) 0 = _; simp only [FVal.npow, pow_zero]
  | succ k => rfl

@[simp] theorem FVal.fin_max (a b : R) :
    (Max.max (.fin a) (.fin b) : FVal R) = .fin (Max.max a b) := by
  show FVal.max (.fin a) (.fin b) = _
  simp only [FVal.max]
  rcases lt_trichotomy a b with h | h | h
  · rw [if_pos h, max_eq_right h.le]
  · rw [if_neg (by rw [h]; exact lt_irrefl b), h, max_self]
  · rw [if_neg (not_lt.mpr h.le), max_eq_left h.le]

@[simp] theorem FVal.fin_min (a b : R) :
    (Min.min (.fin a) (.fin b) : FVal R) = .fin (Min.min a b) := by
  show FVal.min (.fin a) (.fin b) = _
  simp only [FVal.min]
  rcases lt_trichotomy b a with h | h | h
  · rw [if_pos h, min_eq_right h.le]
  · rw [if_neg (by rw [h]; exact lt_irrefl a), h, min_self]
  · rw [if_neg (not_lt.mpr h.le), min_eq_left h.le]

@[simp] theorem FVal.nan_add (a : FVal R) : (.nan + a : FVal R) = .nan := by
  cases a <;> rfl

@[simp] theorem FVal.add_nan (a : FVal R) : (a + .nan : FVal R) = .nan := by
  cases a <;> rfl

@[simp] theorem FVal.nan_mul (a : FVal R) : (.nan * a : FVal R) = .nan := by
  cases a <;> rfl

@[simp] theorem FVal.mul_nan (a : FVal R) : (a * .nan : FVal R) = .nan := by
  cases a <;> rfl

theorem special_sqrt (m : Libm R) (a : R) (h : 0 ≤ a) :
    m.special.sqrt (.fin a) = .fin (m.sqrt a) := by
  simp only [Libm.special, not_lt.mpr h, if_false]

@[simp] theorem special_exp (m : Libm R) (a : R) :
    m.special.exp (.fin a) = .fin (m.exp a) := rfl

theorem special_pow (m : Libm R) (a b : R) (h : 0 < a ∨ b = 1) :
    m.special.pow (.fin a) (.fin b) = .fin (m.pow a b) := by
  simp only [Libm.special, h, if_true]

@[simp] theorem special_pi (m : Libm R) : m.special.pi = .fin m.pi := rfl

@[simp] theorem Vec3.toF_add (a b : Vec3 R) : a.toF + b.toF = (a + b).toF := rfl

@[simp] theorem Vec3.toF_sub (a b : Vec3 R) : a.toF - b.toF = (a - b).toF := rfl

@[simp] theorem Vec3.toF_zero : (0 : Vec3 (FVal R)) = (0 : Vec3 R).toF := rfl

@[simp] theorem Vec3.toF_scale (v : Vec3 R) (c : R) :
    v.toF.scale (.fin c) = (v.scale c).toF := rfl

@[simp] theorem dot_toF (a b : Vec3 R) : dot a.toF b.toF = .fin (dot a b) := rfl

theorem Vec3.squaredLength_nonneg (v : Vec3 R) : 0 ≤ Vec3.squaredLength v := by
  simp only [Vec3.squaredLength]
  nlinarith [mul_self_nonneg v.x, mul_self_nonneg v.y, mul_self_nonneg v.z]

@[simp] theorem Vec3.length_toF (m : Libm R) (v : Vec3 R) :
    Vec3.length m.special v.toF = .fin (Vec3.length m v) := by
  show m.special.sqrt (.fin (Vec3.squaredLength v)) = _
  exact special_sqrt m _ (Vec3.squaredLength_nonneg v)

/-- Normalising a vector of non-zero length stays finite. -/
theorem Vec3.normalize_toF (m : Libm R) (v : Vec3 R) (h : Vec3.length m v ≠ 0) :
    Vec3.normalize m.special v.toF = (Vec3.normalize m v).toF := by
  simp only [Vec3.normalize, Vec3.length_toF, FVal.one_def, FVal.fin_div _ _ h,
    Vec3.toF_scale]

theorem G1Schlick_toF (m : Libm R) (g : Globals R) (w n : Vec3 R)
    (h : G1SchlickDefined m g w n) :
    G1Schlick m.special g.toF w.toF n.toF = .fin (G1Schlick m g w n) := by
  obtain ⟨hpi, hs, hden⟩ := h
  simp only [G1Schlick, Globals.toF, dot_toF, special_pi, FVal.ofNat_def, FVal.one_def,
    FVal.fin_div _ _ hpi, special_sqrt m _ hs, FVal.fin_mul, FVal.fin_sub, FVal.fin_add,
    FVal.fin_div _ _ hden]

theorem G1Smith_toF (m : Libm R) (w : Vec3 R) (alpha2 : R) (n : Vec3 R)
    (h : G1SmithDefined m w alpha2 n) :
    G1Smith m.special w.toF (.fin alpha2) n.toF = .fin (G1Smith m w alpha2 n) := by
  obtain ⟨hs, hden⟩ := h
  simp only [G1Smith, dot_toF, FVal.ofNat_def, FVal.one_def, FVal.fin_pow, FVal.fin_mul,
    FVal.fin_sub, FVal.fin_add, special_sqrt m _ hs, FVal.fin_div _ _ hden]

theorem fresnel_toF (g : Globals R) (wi wh : Vec3 R) :
    fresnel g.toF wi.toF wh.toF = .fin (fresnel g wi wh) := by
  simp only [fresnel, Globals.toF, dot_toF, FVal.zero_def, FVal.one_def, FVal.fin_max,
    FVal.fin_sub, FVal.fin_pow, FVal.fin_mul, FVal.fin_add]

theorem cookTorranceD_toF (m : Libm R) (g : Globals R) (n wh : Vec3 R)
    (h1 : g.alpha ^ 2 * dot n wh ^ 2 ≠ 0) (h2 : (dot n wh ^ 2) ^ 2 * g.alpha ^ 2 * m.pi ≠ 0) :
    cookTorranceD m.special g.toF n.toF wh.toF = .fin (cookTorranceD m g n wh) := by
  simp only [cookTorranceD, Globals.toF, dot_toF, special_pi, FVal.one_def, FVal.fin_pow,
    FVal.fin_mul, FVal.fin_sub, FVal.fin_div _ _ h1, special_exp, FVal.fin_div _ _ h2]

theorem cookTorranceG_toF (n wi wo wh : Vec3 R) (h : dot wo wh ≠ 0) :
    cookTorranceG n.toF wi.toF wo.toF wh.toF = .fin (cookTorranceG n wi wo wh) := by
  simp only [cookTorranceG, dot_toF, FVal.ofNat_def, FVal.one_def, FVal.fin_mul,
    FVal.fin_div _ _ h, FVal.fin_min]

theorem ggxD_toF (m : Libm R) (g : Globals R) (n wh : Vec3 R)
    (h : m.pi * (1 + (g.alpha ^ 2 - 1) * dot n wh ^ 2) ^ 2 ≠ 0) :
    ggxD m.special g.toF n.toF wh.toF = .fin (ggxD m g n wh) := by
  simp only [ggxD, Globals.toF, dot_toF, special_pi, FVal.one_def, FVal.fin_pow, FVal.fin_mul,
    FVal.fin_sub, FVal.fin_add, FVal.fin_div _ _ h]

/-- Where no denominator is zero the microfacet specular term is the finite value
of exact arithmetic. -/
theorem microFacetFs_toF (m : Libm R) (g : Globals R) (n wi wo wh : Vec3 R)
    (h : microFacetFsDefined m g n wi wo wh) :
    microFacetFs m.special g.toF n.toF wi.toF wo.toF wh.toF
      = .fin (microFacetFs m g n wi wo wh) := by
  obtain ⟨hden, hrest⟩ := h
  have hggx : g.toF.ggx = g.ggx := rfl
  have hsch : g.toF.schlick = g.schlick := rfl
  have ha : g.toF.alpha = .fin g.alpha := rfl
  unfold microFacetFs
  rw [hggx]
  by_cases hg : g.ggx = false
  · rw [if_pos hg] at hrest
    obtain ⟨h1, h2, h3⟩ := hrest
    rw [if_pos hg, if_pos hg, cookTorranceD_toF m g n wh h1 h2, fresnel_toF,
      cookTorranceG_toF n wi wo wh h3]
    simp only [dot_toF, FVal.ofNat_def, FVal.fin_mul, FVal.fin_div _ _ hden]
  · rw [if_neg hg] at hrest
    obtain ⟨h1, h2⟩ := hrest
    have hG : ggxG m.special g.toF n.toF wi.toF wo.toF = .fin (ggxG m g n wi wo) := by
      unfold ggxG
      rw [hsch, ha]
      by_cases hs : g.schlick = false
      · rw [if_pos hs] at h2
        simp only [if_pos hs, FVal.fin_pow, G1Smith_toF m wi _ n h2.1,
          G1Smith_toF m wo _ n h2.2, FVal.fin_mul]
      · rw [if_neg hs] at h2
        simp only [if_neg hs, G1Schlick_toF m g wi n h2.1, G1Schlick_toF m g wo n h2.2,
          FVal.fin_mul]
    rw [if_neg hg, if_neg hg, ggxD_toF m g n wh h1, fresnel_toF, hG]
    simp only [dot_toF, FVal.ofNat_def, FVal.fin_mul, FVal.fin_div _ _ hden]

theorem specular_toF (m : Libm R) (g : Globals R) (n wi wo wh : Vec3 R)
    (h : specularDefined m g n wi wo wh) :
    specular m.special g.toF n.toF wi.toF wo.toF wh.toF = .fin (specular m g n wi wo wh) := by
  have hmf : g.toF.microFacet = g.microFacet := rfl
  have hks : g.toF.ks = .fin g.ks := rfl
  have hs : g.toF.s = .fin g.s := rfl
  unfold specular specularDefined at *
  rw [hmf]
  by_cases hm : g.microFacet = false
  · rw [if_pos hm] at h
    rw [if_pos hm, if_pos hm, hks, hs, dot_toF, special_pow m _ _ h, FVal.fin_mul]
  · rw [if_neg hm] at h
    rw [if_neg hm, if_neg hm, microFacetFs_toF m g n wi wo wh h]

theorem attenuation_toF (m : Libm R) (v : Vec3 R)
    (hatt : ac + al * Vec3.length m v + aq * Vec3.length m v * Vec3.length m v ≠ (0 : R)) :
    attenuation (Vec3.length m.special v.toF) = .fin (attenuation (Vec3.length m v)) := by
  simp only [attenuation, Vec3.length_toF]
  show (FVal.fin 1 / (FVal.fin ac + FVal.fin al * FVal.fin _
    + FVal.fin aq * FVal.fin _ * FVal.fin _) : FVal R) = _
  simp only [FVal.fin_mul, FVal.fin_add, FVal.fin_div _ _ hatt]

/-- Where no denominator is zero the vector one light adds is the finite vector
of exact arithmetic. -/
theorem lightResponse_toF (m : Libm R) (g : Globals R) (cam x n : Vec3 R)
    (l : LightSource R) (h : lightResponseDefined m g cam x n l) :
    lightResponse m.special g.toF cam.toF x.toF n.toF l.toF
      = (lightResponse m g cam x n l).toF := by
  obtain ⟨hcam, hlight, hhalf, hspec, hatt⟩ := h
  have hwo : directionTo m.special cam.toF x.toF = (directionTo m cam x).toF := by
    simp only [directionTo, Vec3.toF_sub, Vec3.normalize_toF m _ hcam]
  have hwi : directionTo m.special l.position.toF x.toF = (directionTo m l.position x).toF := by
    simp only [directionTo, Vec3.toF_sub, Vec3.normalize_toF m _ hlight]
  have hwh : halfVector m.special (directionTo m l.position x).toF (directionTo m cam x).toF
      = (halfVector m (directionTo m l.position x) (directionTo m cam x)).toF := by
    simp only [halfVector, Vec3.toF_add, Vec3.normalize_toF m _ hhalf]
  have hfd : g.toF.fd = .fin g.fd := rfl
  have hcol : l.toF.color = l.color.toF := rfl
  have hpos : l.toF.position = l.position.toF := rfl
  have hAtt : attenuation (Vec3.length m.special (l.position.toF - x.toF))
      = .fin (attenuation (Vec3.length m (l.position - x))) := by
    rw [Vec3.toF_sub]
    exact attenuation_toF m _ hatt
  simp only [lightResponse, hpos, hcol, hfd, hwo, hwi, hwh, specular_toF m g n _ _ _ hspec,
    hAtt, dot_toF, FVal.zero_def, FVal.fin_add, FVal.fin_max, Vec3.toF_scale]

theorem FVal.fin_div_nan (a b : R) (ha : a = 0) (hb : b = 0) :
    (.fin a / .fin b : FVal R) = .nan := by
  rw [ha, hb]
  exact FVal.zero_div_zero

/-- The initial state computed on `FVal` is the finite initial state. -/
theorem initialGlobals_toF (m : Libm R) (hpi : m.pi ≠ 0) :
    initialGlobals m.special = (initialGlobals m).toF := by
  simp only [initialGlobals, Globals.toF, special_pi, FVal.one_def, FVal.ofNat_def,
    FVal.fin_div _ _ hpi, FVal.fin_div (1 : R) 100 (by norm_num),
    FVal.fin_div (1 : R) 2 (by norm_num)]

/-- Where every active light is computed without a zero denominator, the inner
loop on `FVal` is the inner loop of exact arithmetic. -/
theorem lightLoop_toF (m : Libm R) (g : Globals R) (mesh : Mesh R) (cam : Vec3 R) (i : Nat)
    (lights : List (LightSource R))
    (hdef : ∀ x n, mesh.positions[i]? = some x → mesh.normals[i]? = some n →
      ∀ l ∈ lights, l.active = true → lightResponseDefined m g cam x n l) :
    ∀ c : Vec3 R, lightLoop m.special g.toF mesh.toF cam.toF i (lights.map LightSource.toF) c.toF
      = (lightLoop m g mesh cam i lights c).map Vec3.toF := by
  induction lights with
  | nil => intro c; rfl
  | cons l ls ih =>
    intro c
    have ih2 := ih (fun x n hx hn l2 hl2 ha => hdef x n hx hn l2 (List.mem_cons_of_mem _ hl2) ha)
    have hact : l.toF.active = l.active := rfl
    have hp : mesh.toF.positions[i]? = (mesh.positions[i]?).map Vec3.toF := by
      simp only [Mesh.toF, List.getElem?_map]
    have hq : mesh.toF.normals[i]? = (mesh.normals[i]?).map Vec3.toF := by
      simp only [Mesh.toF, List.getElem?_map]
    simp only [List.map_cons, lightLoop, hact, hp, hq]
    cases ha : l.active with
    | false =>
      simp only [Bool.false_eq_true, if_false]
      exact ih2 c
    | true =>
      simp only [if_true]
      cases hx : mesh.positions[i]? with
      | none => simp only [Option.map_none']
      | some x =>
        cases hn : mesh.normals[i]? with
        | none => simp only [Option.map_none', Option.map_some']
        | some n =>
          simp only [Option.map_some']
          rw [lightResponse_toF m g cam x n l (hdef x n hx hn l (List.mem_cons_self _ _) ha),
            Vec3.toF_add]
          exact ih2 _

end SpecialLemmas

section TermLemmas

variable {R : Type} [LinearOrderedField R]

/-- Two unit vectors have scalar product at most one. -/
theorem dot_le_one_of_unit (a b : Vec3 R) (ha : dot a a = 1) (hb : dot b b = 1) :
    dot a b ≤ 1 := by
  simp only [dot] at *
  nlinarith [sq_nonneg (a.x - b.x), sq_nonneg (a.y - b.y), sq_nonneg (a.z - b.z)]

/-- Bounds of the Fresnel factor in terms of the cosine `dot wi wh`. -/
theorem fresnel_bounds (g : Globals R) (wi wh : Vec3 R) (h1 : g.F0 ≤ 1)
    (hc : dot wi wh ≤ 1) : g.F0 ≤ fresnel g wi wh ∧ fresnel g wi wh ≤ 1 := by
  have ht0 : 0 ≤ 1 - max 0 (dot wi wh) := sub_nonneg.mpr (max_le zero_le_one hc)
  have ht1 : 1 - max 0 (dot wi wh) ≤ 1 := by
    have := le_max_left 0 (dot wi wh)
    linarith
  have hp0 : 0 ≤ (1 - max 0 (dot wi wh)) ^ 5 := pow_nonneg ht0 5
  have hp1 : (1 - max 0 (dot wi wh)) ^ 5 ≤ 1 := pow_le_one₀ ht0 ht1
  unfold fresnel
  constructor
  · nlinarith
  · nlinarith

/-- The Smith masking term lies in the unit interval. -/
theorem G1Smith_bounds (w n : Vec3 ℝ) (alpha2 : ℝ) (ha0 : 0 ≤ alpha2) (ha1 : alpha2 ≤ 1)
    (hc0 : 0 ≤ dot n w) (hc1 : dot n w ≤ 1) :
    0 ≤ G1Smith ⟨Real.sqrt, Real.exp, fun a b => a ^ b, Real.pi⟩ w alpha2 n ∧
      G1Smith ⟨Real.sqrt, Real.exp, fun a b => a ^ b, Real.pi⟩ w alpha2 n ≤ 1 := by
  simp only [G1Smith]
  have hsq : dot n w ^ 2 ≤ 1 := pow_le_one₀ hc0 hc1
  have hr : dot n w ≤ Real.sqrt (alpha2 + (1 - alpha2) * dot n w ^ 2) := by
    rw [Real.le_sqrt hc0 (by nlinarith)]
    nlinarith
  constructor
  · exact div_nonneg (by linarith) (by linarith)
  · exact div_le_one_of_le₀ (by linarith) (by linarith)

/-- The constant `k` of the Schlick masking term lies in the unit interval. -/
theorem schlick_k_bounds (alpha : ℝ) (ha0 : 0 ≤ alpha) (ha1 : alpha ≤ 1) :
    0 ≤ alpha * Real.sqrt (2 / Real.pi) ∧ alpha * Real.sqrt (2 / Real.pi) ≤ 1 := by
  have h1 : Real.sqrt (2 / Real.pi) ≤ 1 :=
    Real.sqrt_le_one.mpr (div_le_one_of_le₀ Real.two_le_pi Real.pi_pos.le)
  have h0 : 0 ≤ Real.sqrt (2 / Real.pi) := Real.sqrt_nonneg _
  constructor
  · exact mul_nonneg ha0 h0
  · nlinarith

/-- The Schlick masking term lies in the unit interval. -/
theorem G1Schlick_bounds (g : Globals ℝ) (w n : Vec3 ℝ) (ha0 : 0 ≤ g.alpha) (ha1 : g.alpha ≤ 1)
    (hc0 : 0 ≤ dot n w) (hc1 : dot n w ≤ 1) :
    0 ≤ G1Schlick ⟨Real.sqrt, Real.exp, fun a b => a ^ b, Real.pi⟩ g w n ∧
      G1Schlick ⟨Real.sqrt, Real.exp, fun a b => a ^ b, Real.pi⟩ g w n ≤ 1 := by
  obtain ⟨hk0, hk1⟩ := schlick_k_bounds g.alpha ha0 ha1
  simp only [G1Schlick]
  have hden : dot n w ≤ dot n w * (1 - g.alpha * Real.sqrt (2 / Real.pi))
      + g.alpha * Real.sqrt (2 / Real.pi) := by
    nlinarith
  constructor
  · exact div_nonneg hc0 (by linarith)
  · exact div_le_one_of_le₀ hden (by linarith)

/-- On the domain of the masking terms the Smith term has no zero denominator and
no negative square root. -/
theorem G1Smith_defined (w n : Vec3 ℝ) (alpha2 : ℝ) (ha0 : 0 < alpha2) (ha1 : alpha2 ≤ 1)
    (hc0 : 0 ≤ dot n w) (hc1 : dot n w ≤ 1) :
    G1SmithDefined ⟨Real.sqrt, Real.exp, fun a b => a ^ b, Real.pi⟩ w alpha2 n := by
  have hsq : dot n w ^ 2 ≤ 1 := pow_le_one₀ hc0 hc1
  have harg : 0 < alpha2 + (1 - alpha2) * dot n w ^ 2 := by nlinarith [sq_nonneg (dot n w)]
  refine ⟨harg.le, ?_⟩
  have hpos : 0 < Real.sqrt (alpha2 + (1 - alpha2) * dot n w ^ 2) := Real.sqrt_pos.mpr harg
  show dot n w + Real.sqrt (alpha2 + (1 - alpha2) * dot n w ^ 2) ≠ 0
  linarith

/-- On the domain of the masking terms the Schlick term has no zero denominator
and no negative square root. -/
theorem G1Schlick_defined (g : Globals ℝ) (w n : Vec3 ℝ) (ha0 : 0 < g.alpha)
    (ha1 : g.alpha ≤ 1) (hc0 : 0 ≤ dot n w) :
    G1SchlickDefined ⟨Real.sqrt, Real.exp, fun a b => a ^ b, Real.pi⟩ g w n := by
  obtain ⟨_, hk1⟩ := schlick_k_bounds g.alpha ha0.le ha1
  have hq : 0 < 2 / Real.pi := div_pos (by norm_num) Real.pi_pos
  have hk : 0 < g.alpha * Real.sqrt (2 / Real.pi) := mul_pos ha0 (Real.sqrt_pos.mpr hq)
  refine ⟨Real.pi_ne_zero, hq.le, ?_⟩
  show dot n w * (1 - g.alpha * Real.sqrt (2 / Real.pi))
    + g.alpha * Real.sqrt (2 / Real.pi) ≠ 0
  rcases eq_or_lt_of_le hc0 with h | h
  · rw [← h]
    simp only [zero_mul, zero_add]
    exact hk.ne.symm
  · have : 0 < dot n w * (1 - g.alpha * Real.sqrt (2 / Real.pi))
        + g.alpha * Real.sqrt (2 / Real.pi) := by nlinarith
    exact this.ne.symm

theorem sqrt_four : Real.sqrt 4 = 2 := by
  rw [show (4 : ℝ) = 2 ^ 2 by norm_num]
  exact Real.sqrt_sq (by norm_num)

theorem sqrt_twentyfive : Real.sqrt 25 = 5 := by
  rw [show (25 : ℝ) = 5 ^ 2 by norm_num]
  exact Real.sqrt_sq (by norm_num)

/-- The half vector of a unit vector with itself is that vector. -/
theorem halfVector_self (n : Vec3 ℝ) (hn : dot n n = 1) :
    halfVector ⟨Real.sqrt, Real.exp, fun a b => a ^ b, Real.pi⟩ n n = n := by
  have hlen : Vec3.squaredLength (n + n) = 4 := by
    simp only [dot] at hn
    simp only [Vec3.squaredLength, Vec3.add_x, Vec3.add_y, Vec3.add_z]
    linarith
  simp only [halfVector, Vec3.normalize, Vec3.length, hlen, sqrt_four]
  ext <;> simp only [Vec3.scale, Vec3.add_x, Vec3.add_y, Vec3.add_z] <;> ring

/-- The Cook-Torrance distribution term where `dot n wh = 1`. -/
theorem cookTorranceD_head_on (g : Globals ℝ) (n wh : Vec3 ℝ) (h : dot n wh = 1) :
    cookTorranceD ⟨Real.sqrt, Real.exp, fun a b => a ^ b, Real.pi⟩ g n wh
      = 1 / (Real.pi * g.alpha ^ 2) := by
  simp only [cookTorranceD, h, one_pow, sub_self, zero_div, Real.exp_zero, one_mul, mul_one]
  rw [mul_comm]

/-- The GGX distribution term where `dot n wh = 1`. -/
theorem ggxD_head_on (g : Globals ℝ) (n wh : Vec3 ℝ) (h : dot n wh = 1) (ha : g.alpha ≠ 0) :
    ggxD ⟨Real.sqrt, Real.exp, fun a b => a ^ b, Real.pi⟩ g n wh
      = 1 / (Real.pi * g.alpha ^ 2) := by
  simp only [ggxD, h, one_pow, mul_one]
  have hpi : Real.pi ≠ 0 := Real.pi_ne_zero
  field_simp
  ring

end TermLemmas

section Scenario

/-- Normalising a vector whose squared length is `r * r` with `r ≥ 0` divides it
by `r`. -/
theorem normalize_of_squaredLength (v : Vec3 ℝ) (r : ℝ) (hr : 0 ≤ r)
    (h : Vec3.squaredLength v = r * r) :
    Vec3.normalize ⟨Real.sqrt, Real.exp, fun a b => a ^ b, Real.pi⟩ v = v.scale (1 / r) := by
  simp only [Vec3.normalize, Vec3.length, h, Real.sqrt_mul_self hr]

/-- The microfacet specular term for head-on light and view, in every sub-mode. -/
theorem microFacetFs_head_on (g : Globals ℝ) (n : Vec3 ℝ) (hn : dot n n = 1)
    (ha : 0 < g.alpha) :
    microFacetFs ⟨Real.sqrt, Real.exp, fun a b => a ^ b, Real.pi⟩ g n n n n
      = g.F0 / (4 * Real.pi * g.alpha ^ 2) := by
  have hpi : Real.pi ≠ 0 := Real.pi_ne_zero
  have ha0 : g.alpha ≠ 0 := ha.ne.symm
  have hF : fresnel g n n = g.F0 := by
    simp only [fresnel, hn, max_eq_right zero_le_one]
    ring
  unfold microFacetFs
  split
  · have hG : cookTorranceG n n n n = 1 := by
      simp only [cookTorranceG, hn]
      norm_num
    rw [cookTorranceD_head_on g n n hn, hF, hG, hn]
    field_simp
    left
    ring
  · have hG : ggxG ⟨Real.sqrt, Real.exp, fun a b => a ^ b, Real.pi⟩ g n n n = 1 := by
      unfold ggxG
      split
      · simp only [G1Smith, hn]
        norm_num
      · simp only [G1Schlick, hn]
        norm_num
    rw [ggxD_head_on g n n hn ha0, hF, hG, hn]
    field_simp
    left
    ring

/-- The response of the scenario light at the scenario vertex. -/
theorem scenario_lightResponse (g : Globals ℝ) (hks : g.ks = 0) (ha : 0 < g.alpha) :
    lightResponse ⟨Real.sqrt, Real.exp, fun a b => a ^ b, Real.pi⟩ g
        ⟨0, 0, 5⟩ ⟨0, 0, 0⟩ ⟨0, 0, 1⟩ ⟨⟨0, 0, 5⟩, ⟨1, 1, 1⟩, true⟩
      = ⟨(g.fd + headOnFs g.microFacet g.alpha g.F0 Real.pi) / 5,
         (g.fd + headOnFs g.microFacet g.alpha g.F0 Real.pi) / 5,
         (g.fd + headOnFs g.microFacet g.alpha g.F0 Real.pi) / 5⟩ := by
  have hsub : ((⟨0, 0, 5⟩ : Vec3 ℝ) - ⟨0, 0, 0⟩) = ⟨0, 0, 5⟩ := by
    ext <;> simp
  have hd : directionTo ⟨Real.sqrt, Real.exp, fun a b => a ^ b, Real.pi⟩
      (⟨0, 0, 5⟩ : Vec3 ℝ) ⟨0, 0, 0⟩ = ⟨0, 0, 1⟩ := by
    rw [directionTo, hsub, normalize_of_squaredLength _ 5 (by norm_num)
      (by simp only [Vec3.squaredLength]; norm_num)]
    ext <;> simp [Vec3.scale]
  have hn : dot (⟨0, 0, 1⟩ : Vec3 ℝ) ⟨0, 0, 1⟩ = 1 := by simp [dot]
  have hlen : Vec3.length ⟨Real.sqrt, Real.exp, fun a b => a ^ b, Real.pi⟩
      (⟨0, 0, 5⟩ : Vec3 ℝ) = 5 := by
    simp only [Vec3.length, Vec3.squaredLength]
    norm_num
    exact sqrt_twentyfive
  have hfs : specular ⟨Real.sqrt, Real.exp, fun a b => a ^ b, Real.pi⟩ g
      ⟨0, 0, 1⟩ ⟨0, 0, 1⟩ ⟨0, 0, 1⟩ ⟨0, 0, 1⟩
      = headOnFs g.microFacet g.alpha g.F0 Real.pi := by
    unfold specular headOnFs
    cases hmf : g.microFacet with
    | false => simp [hks]
    | true =>
      simp only [Bool.true_eq_false, if_false, if_true]
      exact microFacetFs_head_on g _ hn ha
  simp only [lightResponse, hd, hsub, halfVector_self _ hn, hfs, hlen, hn, attenuation, ac, al,
    aq, max_eq_left zero_le_one]
  ext <;> simp [Vec3.scale] <;> ring

/-- The pass in the end-to-end scenario, for any material state with `ks = 0` and
positive roughness, any inactive lights around the scenario light and any prior
content of the one-entry buffer. -/
theorem scenario_update (g : Globals ℝ) (hks : g.ks = 0) (ha : 0 < g.alpha)
    (before after : List (LightSource ℝ)) (c0 : Vec3 ℝ)
    (hb : ∀ l ∈ before, l.active = false) (haf : ∀ l ∈ after, l.active = false) :
    updatePerVertexColorResponse ⟨Real.sqrt, Real.exp, fun a b => a ^ b, Real.pi⟩ g
        ⟨[⟨0, 0, 0⟩], [⟨0, 0, 1⟩]⟩ ⟨0, 0, 5⟩
        (before ++ ⟨⟨0, 0, 5⟩, ⟨1, 1, 1⟩, true⟩ :: after) [c0]
      = some [⟨(g.fd + headOnFs g.microFacet g.alpha g.F0 Real.pi) / 5,
               (g.fd + headOnFs g.microFacet g.alpha g.F0 Real.pi) / 5,
               (g.fd + headOnFs g.microFacet g.alpha g.F0 Real.pi) / 5⟩] := by
  rw [update_eq _ g _ _ _
    (fun _ => ⟨(g.fd + headOnFs g.microFacet g.alpha g.F0 Real.pi) / 5,
               (g.fd + headOnFs g.microFacet g.alpha g.F0 Real.pi) / 5,
               (g.fd + headOnFs g.microFacet g.alpha g.F0 Real.pi) / 5⟩) [c0]]
  · rfl
  · intro j hj
    have hj0 : j = 0 := by
      simp only [List.length_singleton, Nat.lt_one_iff] at hj
      exact hj
    subst hj0
    rw [lightLoop_append_inactive _ _ _ _ _ _ _ _ hb]
    simp only [lightLoop, if_true, List.getElem?_cons_zero]
    rw [lightLoop_inactive _ _ _ _ _ _ _ haf, Vec3.zero_add_left,
      scenario_lightResponse g hks ha]

/-- The directions of the grazing-view scene: vertex at the origin with normal
(3/5, 4/5, 0), light at (3, 4, 0), viewer at (3, -4, 0). -/
theorem grazing_directions :
    directionTo ⟨Real.sqrt, Real.exp, fun a b => a ^ b, Real.pi⟩
        (⟨3, 4, 0⟩ : Vec3 ℝ) ⟨0, 0, 0⟩ = ⟨3 / 5, 4 / 5, 0⟩ ∧
    directionTo ⟨Real.sqrt, Real.exp, fun a b => a ^ b, Real.pi⟩
        (⟨3, -4, 0⟩ : Vec3 ℝ) ⟨0, 0, 0⟩ = ⟨3 / 5, -4 / 5, 0⟩ ∧
    halfVector ⟨Real.sqrt, Real.exp, fun a b => a ^ b, Real.pi⟩
        (⟨3 / 5, 4 / 5, 0⟩ : Vec3 ℝ) ⟨3 / 5, -4 / 5, 0⟩ = ⟨1, 0, 0⟩ ∧
    Vec3.length ⟨Real.sqrt, Real.exp, fun a b => a ^ b, Real.pi⟩
        ((⟨3, 4, 0⟩ : Vec3 ℝ) - ⟨0, 0, 0⟩) = 5 := by
  refine ⟨?_, ?_, ?_, ?_⟩
  · rw [directionTo, normalize_of_squaredLength _ 5 (by norm_num)
      (by simp only [Vec3.squaredLength, Vec3.sub_x, Vec3.sub_y, Vec3.sub_z]; norm_num)]
    ext <;> simp [Vec3.scale] <;> norm_num
  · rw [directionTo, normalize_of_squaredLength _ 5 (by norm_num)
      (by simp only [Vec3.squaredLength, Vec3.sub_x, Vec3.sub_y, Vec3.sub_z]; norm_num)]
    ext <;> simp [Vec3.scale] <;> norm_num
  · rw [halfVector, normalize_of_squaredLength _ (6 / 5) (by norm_num)
      (by simp only [Vec3.squaredLength, Vec3.add_x, Vec3.add_y, Vec3.add_z]; norm_num)]
    ext <;> simp [Vec3.scale] <;> norm_num
  · simp only [Vec3.length, Vec3.squaredLength, Vec3.sub_x, Vec3.sub_y, Vec3.sub_z]
    norm_num
    exact sqrt_twentyfive

/-- In the grazing-view scene the Cook-Torrance specular term of the initial
material state is positive although dot(n,wo) = -7/25. -/
theorem grazing_specular_pos :
    0 < specular ⟨Real.sqrt, Real.exp, fun a b => a ^ b, Real.pi⟩
      (initialGlobals ⟨Real.sqrt, Real.exp, fun a b => a ^ b, Real.pi⟩)
      (⟨3 / 5, 4 / 5, 0⟩ : Vec3 ℝ) ⟨3 / 5, 4 / 5, 0⟩ ⟨3 / 5, -4 / 5, 0⟩ ⟨1, 0, 0⟩ := by
  have hD : 0 < cookTorranceD ⟨Real.sqrt, Real.exp, fun a b => a ^ b, Real.pi⟩
      (initialGlobals ⟨Real.sqrt, Real.exp, fun a b => a ^ b, Real.pi⟩)
      (⟨3 / 5, 4 / 5, 0⟩ : Vec3 ℝ) ⟨1, 0, 0⟩ := by
    simp only [cookTorranceD, initialGlobals, dot]
    exact div_pos (Real.exp_pos _) (by have := Real.pi_pos; positivity)
  have hF : 0 < fresnel (initialGlobals ⟨Real.sqrt, Real.exp, fun a b => a ^ b, Real.pi⟩)
      (⟨3 / 5, 4 / 5, 0⟩ : Vec3 ℝ) ⟨1, 0, 0⟩ := by
    have hmax : max (0 : ℝ) (3 / 5) = 3 / 5 := max_eq_right (by norm_num)
    simp only [fresnel, initialGlobals, dot, mul_one, mul_zero, add_zero, hmax]
    norm_num
  have hG : cookTorranceG (⟨3 / 5, 4 / 5, 0⟩ : Vec3 ℝ) ⟨3 / 5, 4 / 5, 0⟩ ⟨3 / 5, -4 / 5, 0⟩
      ⟨1, 0, 0⟩ = -(14 / 25) := by
    simp only [cookTorranceG, dot]
    norm_num
  simp only [specular, initialGlobals, Bool.true_eq_false, if_false, microFacetFs, if_true]
  simp only [initialGlobals] at hD hF
  rw [hG]
  have hden : (4 * dot (⟨3 / 5, 4 / 5, 0⟩ : Vec3 ℝ) ⟨3 / 5, 4 / 5, 0⟩
      * dot (⟨3 / 5, 4 / 5, 0⟩ : Vec3 ℝ) ⟨3 / 5, -4 / 5, 0⟩) = -(28 / 25) := by
    simp only [dot]
    norm_num
  rw [hden]
  have hprod := mul_pos hD hF
  rw [div_neg, mul_neg, neg_div, neg_neg]
  positivity

/-- The length of a vector whose squared length is `r * r` with `r ≥ 0`. -/
theorem length_of_squaredLength (v : Vec3 ℝ) (r : ℝ) (hr : 0 ≤ r)
    (h : Vec3.squaredLength v = r * r) :
    Vec3.length ⟨Real.sqrt, Real.exp, fun a b => a ^ b, Real.pi⟩ v = r := by
  simp only [Vec3.length, h, Real.sqrt_mul_self hr]

/-- The directions and lengths of the tangent-light scene: vertex at the origin
with normal (0, 0, 1), light at (5, 0, 0), viewer at (7, 0, 24). -/
theorem tangent_directions :
    directionTo ⟨Real.sqrt, Real.exp, fun a b => a ^ b, Real.pi⟩ (⟨5, 0, 0⟩ : Vec3 ℝ) ⟨0, 0, 0⟩ = ⟨1, 0, 0⟩ ∧
    directionTo ⟨Real.sqrt, Real.exp, fun a b => a ^ b, Real.pi⟩ (⟨7, 0, 24⟩ : Vec3 ℝ) ⟨0, 0, 0⟩ = ⟨7 / 25, 0, 24 / 25⟩ ∧
    halfVector ⟨Real.sqrt, Real.exp, fun a b => a ^ b, Real.pi⟩ (⟨1, 0, 0⟩ : Vec3 ℝ) ⟨7 / 25, 0, 24 / 25⟩ = ⟨4 / 5, 0, 3 / 5⟩ ∧
    Vec3.length ⟨Real.sqrt, Real.exp, fun a b => a ^ b, Real.pi⟩ ((⟨5, 0, 0⟩ : Vec3 ℝ) - ⟨0, 0, 0⟩) = 5 ∧
    Vec3.length ⟨Real.sqrt, Real.exp, fun a b => a ^ b, Real.pi⟩ ((⟨7, 0, 24⟩ : Vec3 ℝ) - ⟨0, 0, 0⟩) = 25 ∧
    Vec3.length ⟨Real.sqrt, Real.exp, fun a b => a ^ b, Real.pi⟩ ((⟨1, 0, 0⟩ : Vec3 ℝ) + ⟨7 / 25, 0, 24 / 25⟩) = 8 / 5 := by
  refine ⟨?_, ?_, ?_, ?_, ?_, ?_⟩
  · rw [directionTo, normalize_of_squaredLength _ 5 (by norm_num)
      (by simp only [Vec3.squaredLength, Vec3.sub_x, Vec3.sub_y, Vec3.sub_z]; norm_num)]
    ext <;> simp [Vec3.scale]
  · rw [directionTo, normalize_of_squaredLength _ 25 (by norm_num)
      (by simp only [Vec3.squaredLength, Vec3.sub_x, Vec3.sub_y, Vec3.sub_z]; norm_num)]
    ext <;> simp [Vec3.scale] <;> norm_num
  · rw [halfVector, normalize_of_squaredLength _ (8 / 5) (by norm_num)
      (by simp only [Vec3.squaredLength, Vec3.add_x, Vec3.add_y, Vec3.add_z]; norm_num)]
    ext <;> simp [Vec3.scale] <;> norm_num
  · exact length_of_squaredLength _ 5 (by norm_num)
      (by simp only [Vec3.squaredLength, Vec3.sub_x, Vec3.sub_y, Vec3.sub_z]; norm_num)
  · exact length_of_squaredLength _ 25 (by norm_num)
      (by simp only [Vec3.squaredLength, Vec3.sub_x, Vec3.sub_y, Vec3.sub_z]; norm_num)
  · exact length_of_squaredLength _ (8 / 5) (by norm_num)
      (by simp only [Vec3.squaredLength, Vec3.add_x, Vec3.add_y, Vec3.add_z]; norm_num)

/-- In the tangent-light scene the Cook-Torrance specular term of the initial
state is `0/0`: NaN. -/
theorem tangent_specular_nan :
    specular (⟨Real.sqrt, Real.exp, fun a b => a ^ b, Real.pi⟩ : Libm ℝ).special (initialGlobals ⟨Real.sqrt, Real.exp, fun a b => a ^ b, Real.pi⟩).toF
      (⟨0, 0, 1⟩ : Vec3 ℝ).toF (⟨1, 0, 0⟩ : Vec3 ℝ).toF (⟨7 / 25, 0, 24 / 25⟩ : Vec3 ℝ).toF
      (⟨4 / 5, 0, 3 / 5⟩ : Vec3 ℝ).toF = .nan := by
  have hpi : Real.pi ≠ 0 := Real.pi_ne_zero
  have hD := cookTorranceD_toF (⟨Real.sqrt, Real.exp, fun a b => a ^ b, Real.pi⟩ : Libm ℝ) (initialGlobals ⟨Real.sqrt, Real.exp, fun a b => a ^ b, Real.pi⟩) ⟨0, 0, 1⟩ ⟨4 / 5, 0, 3 / 5⟩
    (by simp only [initialGlobals, dot]; norm_num)
    (by simp only [initialGlobals, dot]; norm_num; exact hpi)
  have hG := cookTorranceG_toF (⟨0, 0, 1⟩ : Vec3 ℝ) ⟨1, 0, 0⟩ ⟨7 / 25, 0, 24 / 25⟩
    ⟨4 / 5, 0, 3 / 5⟩ (by simp only [dot]; norm_num)
  have hG0 : cookTorranceG (⟨0, 0, 1⟩ : Vec3 ℝ) ⟨1, 0, 0⟩ ⟨7 / 25, 0, 24 / 25⟩
      ⟨4 / 5, 0, 3 / 5⟩ = 0 := by
    simp only [cookTorranceG, dot]
    norm_num
  have hmf : (initialGlobals (⟨Real.sqrt, Real.exp, fun a b => a ^ b, Real.pi⟩ : Libm ℝ)).toF.microFacet = true := rfl
  have hggx : (initialGlobals (⟨Real.sqrt, Real.exp, fun a b => a ^ b, Real.pi⟩ : Libm ℝ)).toF.ggx = false := rfl
  simp only [specular, microFacetFs, hmf, hggx, Bool.true_eq_false, if_false, if_true, hD,
    fresnel_toF, hG, hG0, dot_toF, FVal.ofNat_def, FVal.fin_mul]
  exact FVal.fin_div_nan _ _ (by simp) (by simp [dot])

/-- In the tangent-light scene the light adds NaN in every channel. -/
theorem tangent_response_nan :
    lightResponse (⟨Real.sqrt, Real.exp, fun a b => a ^ b, Real.pi⟩ : Libm ℝ).special (initialGlobals ⟨Real.sqrt, Real.exp, fun a b => a ^ b, Real.pi⟩).toF
      (⟨7, 0, 24⟩ : Vec3 ℝ).toF (⟨0, 0, 0⟩ : Vec3 ℝ).toF (⟨0, 0, 1⟩ : Vec3 ℝ).toF
      (⟨⟨5, 0, 0⟩, ⟨1, 1, 1⟩, true⟩ : LightSource ℝ).toF = ⟨.nan, .nan, .nan⟩ := by
  obtain ⟨hwi, hwo, hwh, hl1, hl2, hl3⟩ := tangent_directions
  have hwiF : directionTo (⟨Real.sqrt, Real.exp, fun a b => a ^ b, Real.pi⟩ : Libm ℝ).special (⟨5, 0, 0⟩ : Vec3 ℝ).toF
      (⟨0, 0, 0⟩ : Vec3 ℝ).toF = (⟨1, 0, 0⟩ : Vec3 ℝ).toF := by
    rw [directionTo, Vec3.toF_sub, Vec3.normalize_toF _ _ (by rw [hl1]; norm_num)]
    exact congrArg Vec3.toF hwi
  have hwoF : directionTo (⟨Real.sqrt, Real.exp, fun a b => a ^ b, Real.pi⟩ : Libm ℝ).special (⟨7, 0, 24⟩ : Vec3 ℝ).toF
      (⟨0, 0, 0⟩ : Vec3 ℝ).toF = (⟨7 / 25, 0, 24 / 25⟩ : Vec3 ℝ).toF := by
    rw [directionTo, Vec3.toF_sub, Vec3.normalize_toF _ _ (by rw [hl2]; norm_num)]
    exact congrArg Vec3.toF hwo
  have hwhF : halfVector (⟨Real.sqrt, Real.exp, fun a b => a ^ b, Real.pi⟩ : Libm ℝ).special (⟨1, 0, 0⟩ : Vec3 ℝ).toF
      (⟨7 / 25, 0, 24 / 25⟩ : Vec3 ℝ).toF = (⟨4 / 5, 0, 3 / 5⟩ : Vec3 ℝ).toF := by
    rw [halfVector, Vec3.toF_add, Vec3.normalize_toF _ _ (by rw [hl3]; norm_num)]
    exact congrArg Vec3.toF hwh
  have hpos : (⟨⟨5, 0, 0⟩, ⟨1, 1, 1⟩, true⟩ : LightSource ℝ).toF.position
      = (⟨5, 0, 0⟩ : Vec3 ℝ).toF := rfl
  have hcol : (⟨⟨5, 0, 0⟩, ⟨1, 1, 1⟩, true⟩ : LightSource ℝ).toF.color
      = (⟨1, 1, 1⟩ : Vec3 ℝ).toF := rfl
  have hfd : (initialGlobals (⟨Real.sqrt, Real.exp, fun a b => a ^ b, Real.pi⟩ : Libm ℝ)).toF.fd
      = .fin (initialGlobals (⟨Real.sqrt, Real.exp, fun a b => a ^ b, Real.pi⟩ : Libm ℝ)).fd := rfl
  simp only [lightResponse, hpos, hcol, hfd, hwiF, hwoF, hwhF, tangent_specular_nan,
    FVal.add_nan]
  simp only [Vec3.scale, FVal.mul_nan, FVal.nan_mul]

/-- The behind-light scene (vertex at the origin with normal (3/5, -4/5, 0), light
at (3, 4, 0), viewer at (3, -4, 0), initial state) is computed without a zero
denominator; there dot(n,wi) = -7/25. -/
theorem behind_defined :
    lightResponseDefined ⟨Real.sqrt, Real.exp, fun a b => a ^ b, Real.pi⟩ (initialGlobals ⟨Real.sqrt, Real.exp, fun a b => a ^ b, Real.pi⟩) (⟨3, -4, 0⟩ : Vec3 ℝ) ⟨0, 0, 0⟩
      ⟨3 / 5, -4 / 5, 0⟩ ⟨⟨3, 4, 0⟩, ⟨1, 1, 1⟩, true⟩ := by
  obtain ⟨hwi, hwo, hwh, hlen⟩ := grazing_directions
  have hcam : Vec3.length ⟨Real.sqrt, Real.exp, fun a b => a ^ b, Real.pi⟩ ((⟨3, -4, 0⟩ : Vec3 ℝ) - ⟨0, 0, 0⟩) = 5 :=
    length_of_squaredLength _ 5 (by norm_num)
      (by simp only [Vec3.squaredLength, Vec3.sub_x, Vec3.sub_y, Vec3.sub_z]; norm_num)
  have hsum : Vec3.length ⟨Real.sqrt, Real.exp, fun a b => a ^ b, Real.pi⟩ ((⟨3 / 5, 4 / 5, 0⟩ : Vec3 ℝ) + ⟨3 / 5, -4 / 5, 0⟩) = 6 / 5 :=
    length_of_squaredLength _ (6 / 5) (by norm_num)
      (by simp only [Vec3.squaredLength, Vec3.add_x, Vec3.add_y, Vec3.add_z]; norm_num)
  have hpi : Real.pi ≠ 0 := Real.pi_ne_zero
  refine ⟨by rw [hcam]; norm_num, by rw [hlen]; norm_num, by rw [hwi, hwo, hsum]; norm_num,
    ?_, by rw [hlen]; simp only [ac, al, aq]; norm_num⟩
  rw [hwi, hwo, hwh]
  simp only [specularDefined, microFacetFsDefined, initialGlobals, Bool.true_eq_false, if_false,
    if_true, dot]
  refine ⟨by norm_num, by norm_num, ?_, by norm_num⟩
  norm_num
  exact hpi

/-- In the behind-light scene dot(n,wi) = -7/25. -/
theorem behind_dot :
    dot (⟨3 / 5, -4 / 5, 0⟩ : Vec3 ℝ) (directionTo ⟨Real.sqrt, Real.exp, fun a b => a ^ b, Real.pi⟩
      (⟨⟨3, 4, 0⟩, ⟨1, 1, 1⟩, true⟩ : LightSource ℝ).position ⟨0, 0, 0⟩) = -(7 / 25) := by
  show dot (⟨3 / 5, -4 / 5, 0⟩ : Vec3 ℝ) (directionTo ⟨Real.sqrt, Real.exp, fun a b => a ^ b, Real.pi⟩ ⟨3, 4, 0⟩ ⟨0, 0, 0⟩) = _
  rw [grazing_directions.1]
  simp only [dot]
  norm_num

/-- The pass over the one-vertex tangent-light scene writes NaN in every
channel. -/
theorem tangent_update_nan :
    updatePerVertexColorResponse (⟨Real.sqrt, Real.exp, fun a b => a ^ b, Real.pi⟩ : Libm ℝ).special (initialGlobals ⟨Real.sqrt, Real.exp, fun a b => a ^ b, Real.pi⟩).toF
      (⟨[⟨0, 0, 0⟩], [⟨0, 0, 1⟩]⟩ : Mesh ℝ).toF (⟨7, 0, 24⟩ : Vec3 ℝ).toF
      [(⟨⟨5, 0, 0⟩, ⟨1, 1, 1⟩, true⟩ : LightSource ℝ).toF] [⟨.fin 0, .fin 0, .fin 0⟩]
      = some [⟨.nan, .nan, .nan⟩] := by
  rw [update_eq _ _ _ _ _ (fun _ => ⟨.nan, .nan, .nan⟩)]
  · rfl
  · intro j hj
    have hj0 : j = 0 := by
      simp only [List.length_singleton, Nat.lt_one_iff] at hj
      exact hj
    subst hj0
    have hact : (⟨⟨5, 0, 0⟩, ⟨1, 1, 1⟩, true⟩ : LightSource ℝ).toF.active = true := rfl
    simp only [lightLoop, hact, if_true, Mesh.toF, List.map_cons, List.map_nil,
      List.getElem?_cons_zero, tangent_response_nan]
    rfl

end Scenario

section Claims

variable {R : Type} [LinearOrderedField R]

/-- C1: for every mesh, viewer position, material state and prior content of the
colour buffer, when no light source is active the pass returns a buffer of the
same length whose every entry is the zero vector. -/
theorem C1_no_active_light_all_zero (m : Libm R) (g : Globals R) (mesh : Mesh R)
    (cameraPosition : Vec3 R) (lightSources : List (LightSource R))
    (colorResponses : List (Vec3 R))
    (h : ∀ l ∈ lightSources, l.active = false) :
    ∃ out, updatePerVertexColorResponse m g mesh cameraPosition lightSources colorResponses
        = some out ∧
      out.length = colorResponses.length ∧ ∀ c ∈ out, c = (⟨0, 0, 0⟩ : Vec3 R) := by
  refine ⟨_, update_eq m g mesh cameraPosition lightSources (fun _ => 0) colorResponses
    (fun j _ => lightLoop_inactive m g mesh cameraPosition j lightSources 0 h), ?_, ?_⟩
  · simp
  · intro c hc
    simp only [List.mem_map] at hc
    obtain ⟨_, _, rfl⟩ := hc
    rfl

/-- Witness for C1: one inactive light, a two-entry buffer with arbitrary prior
content over a one-vertex mesh. -/
theorem C1_no_active_light_all_zero_witness :
    (∀ l ∈ [(⟨⟨0, 0, 5⟩, ⟨1, 1, 1⟩, false⟩ : LightSource ℝ)], l.active = false) ∧
    ∃ out, updatePerVertexColorResponse
        (⟨Real.sqrt, Real.exp, fun a b => a ^ b, Real.pi⟩ : Libm ℝ)
        (initialGlobals ⟨Real.sqrt, Real.exp, fun a b => a ^ b, Real.pi⟩)
        ⟨[⟨0, 0, 0⟩], [⟨0, 0, 1⟩]⟩ ⟨0, 0, 5⟩ [⟨⟨0, 0, 5⟩, ⟨1, 1, 1⟩, false⟩]
        [⟨7, 7, 7⟩, ⟨1, 2, 3⟩] = some out ∧
      out.length = [(⟨7, 7, 7⟩ : Vec3 ℝ), ⟨1, 2, 3⟩].length ∧
      ∀ c ∈ out, c = (⟨0, 0, 0⟩ : Vec3 ℝ) :=
  ⟨by simp, C1_no_active_light_all_zero _ _ _ _ _ _ (by simp)⟩

/-- C3: from the initial material state, after every finite sequence of the
commands c, v, b, r, t, y, u the handler has not ended the process, the step is
still 0.01, the roughness satisfies alphaSpeed ≤ alpha ≤ 1 (so alpha is
positive) and the Fresnel index satisfies 0 ≤ F0 ≤ 1; and 1000 presses of t
from alpha = 1 leave alpha = 0.01. -/
theorem C3_key_range_invariant (m : Libm R) (ks : List Char)
    (hks : ∀ k ∈ ks, k ∈ ['c', 'v', 'b', 'r', 't', 'y', 'u']) :
    (∃ g, keys ks (initialGlobals m) = some g ∧ g.alphaSpeed = 1 / 100 ∧
      g.alphaSpeed ≤ g.alpha ∧ g.alpha ≤ 1 ∧ 0 < g.alpha ∧ 0 ≤ g.F0 ∧ g.F0 ≤ 1) ∧
    keys (List.replicate 1000 't') { initialGlobals m with alpha := 1 }
      = some { initialGlobals m with alpha := 1 / 100 } := by
  constructor
  · obtain ⟨g, hg, h1, _, h3, h4, h5, h6⟩ :=
      keys_rangeInv ks hks (initialGlobals m) (rangeInv_initial m)
    refine ⟨g, hg, h1, h3, h4, ?_, h5, h6⟩
    have : (0 : R) < g.alphaSpeed := by rw [h1]; norm_num
    linarith
  · rw [keys_replicate_t 1000 _ (by simp only [initialGlobals]; norm_num)
      (by simp only [initialGlobals]; norm_num)]
    congr 2
    simp only [initialGlobals]
    norm_num

/-- Witness for C3: the sequence r, t, t, y, u, c. -/
theorem C3_key_range_invariant_witness :
    (∀ k ∈ ['r', 't', 't', 'y', 'u', 'c'], k ∈ ['c', 'v', 'b', 'r', 't', 'y', 'u']) ∧
    ((∃ g, keys ['r', 't', 't', 'y', 'u', 'c'] (initialGlobals (⟨Real.sqrt, Real.exp, fun a b => a ^ b, Real.pi⟩ : Libm ℝ)) = some g ∧
      g.alphaSpeed = 1 / 100 ∧
      g.alphaSpeed ≤ g.alpha ∧ g.alpha ≤ 1 ∧ 0 < g.alpha ∧ 0 ≤ g.F0 ∧ g.F0 ≤ 1) ∧
    keys (List.replicate 1000 't') { initialGlobals (⟨Real.sqrt, Real.exp, fun a b => a ^ b, Real.pi⟩ : Libm ℝ) with alpha := 1 }
      = some { initialGlobals (⟨Real.sqrt, Real.exp, fun a b => a ^ b, Real.pi⟩ : Libm ℝ) with alpha := 1 / 100 }) :=
  ⟨by decide, C3_key_range_invariant _ _ (by decide)⟩

/-- C4: with microFacet = false, replacing alpha, F0, ggx and schlick by any
other values changes neither the specular term fs nor the colour buffer the pass
returns, for every mesh, light configuration and viewer position. -/
theorem C4_blinn_phong_ignores_microfacet_state (m : Libm R) (g : Globals R) (a f0 : R)
    (gx sch : Bool) (mesh : Mesh R) (cameraPosition : Vec3 R)
    (lightSources : List (LightSource R)) (colorResponses : List (Vec3 R))
    (h : g.microFacet = false) :
    (∀ n wi wo wh,
      specular m { g with alpha := a, F0 := f0, ggx := gx, schlick := sch } n wi wo wh
        = specular m g n wi wo wh) ∧
    updatePerVertexColorResponse m { g with alpha := a, F0 := f0, ggx := gx, schlick := sch }
        mesh cameraPosition lightSources colorResponses
      = updatePerVertexColorResponse m g mesh cameraPosition lightSources colorResponses := by
  have hs : ∀ n wi wo wh,
      specular m { g with alpha := a, F0 := f0, ggx := gx, schlick := sch } n wi wo wh
        = specular m g n wi wo wh := by
    intro n wi wo wh
    simp only [specular, h, if_true]
  refine ⟨hs, update_congr m _ g mesh cameraPosition lightSources colorResponses ?_⟩
  intro x n l
  simp only [lightResponse, hs]

/-- Witness for C4: the scenario scene in Blinn-Phong mode, with alpha, F0 and
both sub-mode flags changed. -/
theorem C4_blinn_phong_ignores_microfacet_state_witness :
    ({ initialGlobals (⟨Real.sqrt, Real.exp, fun a b => a ^ b, Real.pi⟩ : Libm ℝ) with microFacet := false } : Globals ℝ).microFacet
      = false ∧
    updatePerVertexColorResponse ⟨Real.sqrt, Real.exp, fun a b => a ^ b, Real.pi⟩
        { ({ initialGlobals (⟨Real.sqrt, Real.exp, fun a b => a ^ b, Real.pi⟩ : Libm ℝ) with microFacet := false } : Globals ℝ) with
          alpha := 1 / 10, F0 := 9 / 10, ggx := true, schlick := true }
        ⟨[⟨0, 0, 0⟩], [⟨0, 0, 1⟩]⟩ ⟨0, 0, 5⟩ [⟨⟨0, 0, 5⟩, ⟨1, 1, 1⟩, true⟩] [⟨0, 0, 0⟩]
      = updatePerVertexColorResponse ⟨Real.sqrt, Real.exp, fun a b => a ^ b, Real.pi⟩
        { initialGlobals (⟨Real.sqrt, Real.exp, fun a b => a ^ b, Real.pi⟩ : Libm ℝ) with microFacet := false }
        ⟨[⟨0, 0, 0⟩], [⟨0, 0, 1⟩]⟩ ⟨0, 0, 5⟩ [⟨⟨0, 0, 5⟩, ⟨1, 1, 1⟩, true⟩] [⟨0, 0, 0⟩] :=
  ⟨rfl, (C4_blinn_phong_ignores_microfacet_state _ _ _ _ _ _ _ _ _ _ rfl).2⟩

/-- C7: for a unit normal n and wi = wo = wh = n, where wh is the half vector
of wi and wo and dot(n,wh) = 1, the distribution term D of microFacetFs is
1/(pi*alpha^2) in the Cook-Torrance branch and in the GGX branch, for every
alpha > 0; for alpha = 0.5 both are 4/pi. -/
theorem C7_head_on_distribution_peak (g : Globals ℝ) (n : Vec3 ℝ) (hn : dot n n = 1)
    (ha : 0 < g.alpha) :
    halfVector ⟨Real.sqrt, Real.exp, fun a b => a ^ b, Real.pi⟩ n n = n ∧
    cookTorranceD ⟨Real.sqrt, Real.exp, fun a b => a ^ b, Real.pi⟩ g n n
      = 1 / (Real.pi * g.alpha ^ 2) ∧
    ggxD ⟨Real.sqrt, Real.exp, fun a b => a ^ b, Real.pi⟩ g n n
      = 1 / (Real.pi * g.alpha ^ 2) ∧
    (g.alpha = 1 / 2 →
      cookTorranceD ⟨Real.sqrt, Real.exp, fun a b => a ^ b, Real.pi⟩ g n n = 4 / Real.pi ∧
      ggxD ⟨Real.sqrt, Real.exp, fun a b => a ^ b, Real.pi⟩ g n n = 4 / Real.pi) := by
  have h1 := cookTorranceD_head_on g n n hn
  have h2 := ggxD_head_on g n n hn ha.ne.symm
  refine ⟨halfVector_self n hn, h1, h2, ?_⟩
  intro hhalf
  have hpi : Real.pi ≠ 0 := Real.pi_ne_zero
  rw [h1, h2, hhalf]
  constructor <;> (field_simp; ring)

/-- Witness for C7: the initial material state (alpha = 0.5) and n = (0,0,1):
both distribution terms are 4/pi. -/
theorem C7_head_on_distribution_peak_witness :
    dot (⟨0, 0, 1⟩ : Vec3 ℝ) ⟨0, 0, 1⟩ = 1 ∧
    0 < (initialGlobals (⟨Real.sqrt, Real.exp, fun a b => a ^ b, Real.pi⟩ : Libm ℝ)).alpha ∧
    cookTorranceD ⟨Real.sqrt, Real.exp, fun a b => a ^ b, Real.pi⟩ (initialGlobals ⟨Real.sqrt, Real.exp, fun a b => a ^ b, Real.pi⟩) (⟨0, 0, 1⟩ : Vec3 ℝ) ⟨0, 0, 1⟩ = 4 / Real.pi ∧
    ggxD ⟨Real.sqrt, Real.exp, fun a b => a ^ b, Real.pi⟩ (initialGlobals ⟨Real.sqrt, Real.exp, fun a b => a ^ b, Real.pi⟩) (⟨0, 0, 1⟩ : Vec3 ℝ) ⟨0, 0, 1⟩ = 4 / Real.pi :=
  ⟨by simp only [dot]; norm_num, by simp only [initialGlobals]; norm_num,
    (C7_head_on_distribution_peak (initialGlobals ⟨Real.sqrt, Real.exp, fun a b => a ^ b, Real.pi⟩) ⟨0, 0, 1⟩ (by simp only [dot]; norm_num)
      (by simp only [initialGlobals]; norm_num)).2.2.2 rfl⟩

/-- C5 as amended: with F0 = 0 the Cook-Torrance branch of microFacetFs returns
D * (1 - max(0, dot(wi,wh)))^5 * G / (4*dot(n,wi)*dot(n,wo)); the Fresnel
factor becomes (1 - max(0, dot(wi,wh)))^5 and stays in the product. -/
theorem C5_cook_torrance_zero_F0 (m : Libm R) (g : Globals R) (n wi wo wh : Vec3 R)
    (hF : g.F0 = 0) (hg : g.ggx = false) :
    microFacetFs m g n wi wo wh
      = (cookTorranceD m g n wh * (1 - max 0 (dot wi wh)) ^ 5 * cookTorranceG n wi wo wh)
          / (4 * dot n wi * dot n wo) := by
  simp only [microFacetFs, hg, if_true, fresnel, hF, zero_add, sub_zero, one_mul]

/-- Witness for the amended C5: head-on vectors, alpha = 0.5, F0 = 0. -/
theorem C5_cook_torrance_zero_F0_witness :
    ({ initialGlobals (⟨Real.sqrt, Real.exp, fun a b => a ^ b, Real.pi⟩ : Libm ℝ)
        with F0 := 0 } : Globals ℝ).F0 = 0 ∧
    ({ initialGlobals (⟨Real.sqrt, Real.exp, fun a b => a ^ b, Real.pi⟩ : Libm ℝ)
        with F0 := 0 } : Globals ℝ).ggx = false ∧
    microFacetFs ⟨Real.sqrt, Real.exp, fun a b => a ^ b, Real.pi⟩
        { initialGlobals (⟨Real.sqrt, Real.exp, fun a b => a ^ b, Real.pi⟩ : Libm ℝ)
          with F0 := 0 } ⟨0, 0, 1⟩ ⟨0, 0, 1⟩ ⟨0, 0, 1⟩ ⟨0, 0, 1⟩
      = (cookTorranceD ⟨Real.sqrt, Real.exp, fun a b => a ^ b, Real.pi⟩
            { initialGlobals (⟨Real.sqrt, Real.exp, fun a b => a ^ b, Real.pi⟩ : Libm ℝ)
              with F0 := 0 } ⟨0, 0, 1⟩ ⟨0, 0, 1⟩
          * (1 - max 0 (dot (⟨0, 0, 1⟩ : Vec3 ℝ) ⟨0, 0, 1⟩)) ^ 5
          * cookTorranceG (⟨0, 0, 1⟩ : Vec3 ℝ) ⟨0, 0, 1⟩ ⟨0, 0, 1⟩ ⟨0, 0, 1⟩)
        / (4 * dot (⟨0, 0, 1⟩ : Vec3 ℝ) ⟨0, 0, 1⟩ * dot (⟨0, 0, 1⟩ : Vec3 ℝ) ⟨0, 0, 1⟩) :=
  ⟨rfl, rfl, C5_cook_torrance_zero_F0 _ _ _ _ _ _ rfl rfl⟩

/-- Counterexample to C5 as stated: n = wi = wo = wh = (0,0,1), alpha = 0.5,
F0 = 0, ggx = false.  All vectors are unit vectors, wh is the half vector, all
cosines are 1.  The Fresnel factor is (1 - 1)^5 = 0, so microFacetFs returns 0,
while D*G/(4*dot(n,wi)*dot(n,wo)) = (4/pi)*1/4 = 1/pi. -/
theorem C5_counterexample :
    dot (⟨0, 0, 1⟩ : Vec3 ℝ) ⟨0, 0, 1⟩ = 1 ∧
    halfVector ⟨Real.sqrt, Real.exp, fun a b => a ^ b, Real.pi⟩ (⟨0, 0, 1⟩ : Vec3 ℝ) ⟨0, 0, 1⟩
      = ⟨0, 0, 1⟩ ∧
    microFacetFs ⟨Real.sqrt, Real.exp, fun a b => a ^ b, Real.pi⟩
        { initialGlobals (⟨Real.sqrt, Real.exp, fun a b => a ^ b, Real.pi⟩ : Libm ℝ)
          with F0 := 0 } ⟨0, 0, 1⟩ ⟨0, 0, 1⟩ ⟨0, 0, 1⟩ ⟨0, 0, 1⟩ = 0 ∧
    cookTorranceD ⟨Real.sqrt, Real.exp, fun a b => a ^ b, Real.pi⟩
          { initialGlobals (⟨Real.sqrt, Real.exp, fun a b => a ^ b, Real.pi⟩ : Libm ℝ)
            with F0 := 0 } ⟨0, 0, 1⟩ ⟨0, 0, 1⟩
        * cookTorranceG (⟨0, 0, 1⟩ : Vec3 ℝ) ⟨0, 0, 1⟩ ⟨0, 0, 1⟩ ⟨0, 0, 1⟩
        / (4 * dot (⟨0, 0, 1⟩ : Vec3 ℝ) ⟨0, 0, 1⟩ * dot (⟨0, 0, 1⟩ : Vec3 ℝ) ⟨0, 0, 1⟩)
      = 1 / Real.pi ∧
    microFacetFs ⟨Real.sqrt, Real.exp, fun a b => a ^ b, Real.pi⟩
        { initialGlobals (⟨Real.sqrt, Real.exp, fun a b => a ^ b, Real.pi⟩ : Libm ℝ)
          with F0 := 0 } ⟨0, 0, 1⟩ ⟨0, 0, 1⟩ ⟨0, 0, 1⟩ ⟨0, 0, 1⟩
      ≠ cookTorranceD ⟨Real.sqrt, Real.exp, fun a b => a ^ b, Real.pi⟩
          { initialGlobals (⟨Real.sqrt, Real.exp, fun a b => a ^ b, Real.pi⟩ : Libm ℝ)
            with F0 := 0 } ⟨0, 0, 1⟩ ⟨0, 0, 1⟩
        * cookTorranceG (⟨0, 0, 1⟩ : Vec3 ℝ) ⟨0, 0, 1⟩ ⟨0, 0, 1⟩ ⟨0, 0, 1⟩
        / (4 * dot (⟨0, 0, 1⟩ : Vec3 ℝ) ⟨0, 0, 1⟩ * dot (⟨0, 0, 1⟩ : Vec3 ℝ) ⟨0, 0, 1⟩) := by
  have hd : dot (⟨0, 0, 1⟩ : Vec3 ℝ) ⟨0, 0, 1⟩ = 1 := by simp [dot]
  have hpi : Real.pi ≠ 0 := Real.pi_ne_zero
  have hG : cookTorranceG (⟨0, 0, 1⟩ : Vec3 ℝ) ⟨0, 0, 1⟩ ⟨0, 0, 1⟩ ⟨0, 0, 1⟩ = 1 := by
    simp only [cookTorranceG, hd]
    norm_num
  have hfs : microFacetFs ⟨Real.sqrt, Real.exp, fun a b => a ^ b, Real.pi⟩
      { initialGlobals (⟨Real.sqrt, Real.exp, fun a b => a ^ b, Real.pi⟩ : Libm ℝ)
        with F0 := 0 } ⟨0, 0, 1⟩ ⟨0, 0, 1⟩ ⟨0, 0, 1⟩ ⟨0, 0, 1⟩ = 0 := by
    simp only [microFacetFs, initialGlobals, if_true, fresnel, hd]
    norm_num
  have hrhs : cookTorranceD ⟨Real.sqrt, Real.exp, fun a b => a ^ b, Real.pi⟩
        { initialGlobals (⟨Real.sqrt, Real.exp, fun a b => a ^ b, Real.pi⟩ : Libm ℝ)
          with F0 := 0 } ⟨0, 0, 1⟩ ⟨0, 0, 1⟩
      * cookTorranceG (⟨0, 0, 1⟩ : Vec3 ℝ) ⟨0, 0, 1⟩ ⟨0, 0, 1⟩ ⟨0, 0, 1⟩
      / (4 * dot (⟨0, 0, 1⟩ : Vec3 ℝ) ⟨0, 0, 1⟩ * dot (⟨0, 0, 1⟩ : Vec3 ℝ) ⟨0, 0, 1⟩)
      = 1 / Real.pi := by
    rw [cookTorranceD_head_on _ _ _ hd, hG, hd]
    simp only [initialGlobals]
    field_simp
    ring
  refine ⟨hd, halfVector_self _ hd, hfs, hrhs, ?_⟩
  rw [hfs, hrhs]
  exact (one_div_ne_zero hpi).symm

/-- C2 as amended: in the end-to-end scenario (one active light at (0,0,5) with
colour (1,1,1), any inactive lights around it, vertex at the origin with normal
(0,0,1), viewer at (0,0,5), kd = pi, fd = kd/pi, ks = 0) the pass writes
(1 + fs)/5 in each channel, where fs = 0 in Blinn-Phong mode and
fs = F0/(4*pi*alpha^2) in microfacet mode, for every ggx and schlick setting,
every alpha > 0 and every F0; so the colour is (0.2, 0.2, 0.2) when
microFacet = false and also when F0 = 0. -/
theorem C2_scenario_colour (mf gx sch : Bool) (a f0 : ℝ)
    (before after : List (LightSource ℝ)) (c0 : Vec3 ℝ) (ha : 0 < a)
    (hb : ∀ l ∈ before, l.active = false) (haf : ∀ l ∈ after, l.active = false) :
    updatePerVertexColorResponse ⟨Real.sqrt, Real.exp, fun a b => a ^ b, Real.pi⟩
        { initialGlobals (⟨Real.sqrt, Real.exp, fun a b => a ^ b, Real.pi⟩ : Libm ℝ) with
          ks := 0, alpha := a, F0 := f0, microFacet := mf, ggx := gx, schlick := sch }
        ⟨[⟨0, 0, 0⟩], [⟨0, 0, 1⟩]⟩ ⟨0, 0, 5⟩
        (before ++ ⟨⟨0, 0, 5⟩, ⟨1, 1, 1⟩, true⟩ :: after) [c0]
      = some [⟨(1 + headOnFs mf a f0 Real.pi) / 5, (1 + headOnFs mf a f0 Real.pi) / 5,
               (1 + headOnFs mf a f0 Real.pi) / 5⟩] ∧
    (mf = false ∨ f0 = 0 →
      updatePerVertexColorResponse ⟨Real.sqrt, Real.exp, fun a b => a ^ b, Real.pi⟩
        { initialGlobals (⟨Real.sqrt, Real.exp, fun a b => a ^ b, Real.pi⟩ : Libm ℝ) with
          ks := 0, alpha := a, F0 := f0, microFacet := mf, ggx := gx, schlick := sch }
        ⟨[⟨0, 0, 0⟩], [⟨0, 0, 1⟩]⟩ ⟨0, 0, 5⟩
        (before ++ ⟨⟨0, 0, 5⟩, ⟨1, 1, 1⟩, true⟩ :: after) [c0]
      = some [⟨1 / 5, 1 / 5, 1 / 5⟩]) := by
  have hfd : Real.pi / Real.pi = 1 := div_self Real.pi_ne_zero
  have key := scenario_update
    { initialGlobals (⟨Real.sqrt, Real.exp, fun a b => a ^ b, Real.pi⟩ : Libm ℝ) with
      ks := 0, alpha := a, F0 := f0, microFacet := mf, ggx := gx, schlick := sch }
    rfl ha before after c0 hb haf
  refine ⟨?_, fun h => ?_⟩
  · rw [key]
    simp only [initialGlobals, hfd]
  · have h0 : headOnFs mf a f0 Real.pi = 0 := by
      unfold headOnFs
      rcases h with h | h
      · simp [h]
      · simp [h]
    rw [key]
    simp only [initialGlobals, hfd, h0, add_zero]

/-- Witness for the amended C2: Blinn-Phong mode, one inactive light ahead of the
scenario light, prior buffer content (9, 9, 9): the pass writes (0.2, 0.2, 0.2). -/
theorem C2_scenario_colour_witness :
    (0 : ℝ) < 1 / 2 ∧
    (∀ l ∈ [(⟨⟨1, 1, 1⟩, ⟨1, 0, 0⟩, false⟩ : LightSource ℝ)], l.active = false) ∧
    updatePerVertexColorResponse ⟨Real.sqrt, Real.exp, fun a b => a ^ b, Real.pi⟩
        { initialGlobals (⟨Real.sqrt, Real.exp, fun a b => a ^ b, Real.pi⟩ : Libm ℝ) with
          ks := 0, alpha := 1 / 2, F0 := 1 / 2, microFacet := false, ggx := false,
          schlick := false }
        ⟨[⟨0, 0, 0⟩], [⟨0, 0, 1⟩]⟩ ⟨0, 0, 5⟩
        ([⟨⟨1, 1, 1⟩, ⟨1, 0, 0⟩, false⟩] ++ ⟨⟨0, 0, 5⟩, ⟨1, 1, 1⟩, true⟩ :: []) [⟨9, 9, 9⟩]
      = some [⟨1 / 5, 1 / 5, 1 / 5⟩] :=
  ⟨by norm_num, by simp,
    (C2_scenario_colour false false false (1 / 2) (1 / 2) [⟨⟨1, 1, 1⟩, ⟨1, 0, 0⟩, false⟩] []
      ⟨9, 9, 9⟩ (by norm_num) (by simp) (by simp)).2 (Or.inl rfl)⟩

/-- Counterexample to C2 as stated: the program's initial state (microFacet =
true, ggx = false, alpha = 0.5, F0 = 0.5) with ks = 0, the scenario light as the
only light.  The pass writes (1 + 1/(2*pi))/5 in each channel, which is not 0.2:
the microfacet term does not use ks. -/
theorem C2_counterexample :
    updatePerVertexColorResponse ⟨Real.sqrt, Real.exp, fun a b => a ^ b, Real.pi⟩
        { initialGlobals (⟨Real.sqrt, Real.exp, fun a b => a ^ b, Real.pi⟩ : Libm ℝ) with
          ks := 0 }
        ⟨[⟨0, 0, 0⟩], [⟨0, 0, 1⟩]⟩ ⟨0, 0, 5⟩ [⟨⟨0, 0, 5⟩, ⟨1, 1, 1⟩, true⟩] [⟨0, 0, 0⟩]
      = some [⟨(1 + 1 / (2 * Real.pi)) / 5, (1 + 1 / (2 * Real.pi)) / 5,
               (1 + 1 / (2 * Real.pi)) / 5⟩] ∧
    updatePerVertexColorResponse ⟨Real.sqrt, Real.exp, fun a b => a ^ b, Real.pi⟩
        { initialGlobals (⟨Real.sqrt, Real.exp, fun a b => a ^ b, Real.pi⟩ : Libm ℝ) with
          ks := 0 }
        ⟨[⟨0, 0, 0⟩], [⟨0, 0, 1⟩]⟩ ⟨0, 0, 5⟩ [⟨⟨0, 0, 5⟩, ⟨1, 1, 1⟩, true⟩] [⟨0, 0, 0⟩]
      ≠ some [⟨1 / 5, 1 / 5, 1 / 5⟩] := by
  have hpi : Real.pi ≠ 0 := Real.pi_ne_zero
  have hfd : Real.pi / Real.pi = 1 := div_self hpi
  have hfs : (1 / 2 : ℝ) / (4 * Real.pi * (1 / 2) ^ 2) = 1 / (2 * Real.pi) := by
    field_simp
    ring
  have key := scenario_update
    { initialGlobals (⟨Real.sqrt, Real.exp, fun a b => a ^ b, Real.pi⟩ : Libm ℝ) with ks := 0 }
    rfl (by simp only [initialGlobals]; norm_num) [] [] ⟨0, 0, 0⟩
    (fun _ h => absurd h (List.not_mem_nil _)) (fun _ h => absurd h (List.not_mem_nil _))
  rw [List.nil_append] at key
  refine ⟨?_, ?_⟩
  · rw [key]
    simp only [initialGlobals, hfd, headOnFs, if_true, hfs]
  · rw [key]
    simp only [initialGlobals, hfd, headOnFs, if_true, hfs]
    intro h
    simp only [Option.some.injEq, List.cons.injEq, and_true, Vec3.mk.injEq, and_self] at h
    have hpos : 0 < 1 / (2 * Real.pi) := by positivity
    linarith

end Claims